import Mathlib

/-!
Verification development for the Knowledge-Assistant query pipeline.

The Python services under `backend/services/` are shallowly embedded as
executable Lean definitions:

* `vector_store.py`   — `searchImpl`, `vsSearch` (FAISS index abstracted as an
  injected hit list / fallible hit function, exactly as the service receives it);
* `reranker.py`       — `rerank`, `rerankFallback` (the four numeric ranking
  signals, whose values none of the verified properties depend on, enter as the
  `combined` score parameter; the TF-IDF signal in particular is computed by an
  external sklearn vectorizer);
* `retrieval.py`      — `retrieveDocuments`;
* `verification.py`   — `verifyClaims` and its helpers;
* `llm_orchestrator.py` — `aggregateAnswers`, `calculateConfidence`,
  `generateAnswer`, `processWithSelfConsistency`, `processSingleGeneration`,
  `processSingleHop`, `processQuery`;
* `query_planner.py`  — `analyzeQueryComplexity`, `decomposeQuery`, `planQuery`,
  `executeHop` with an explicit `PlannerState` for the instance-level hop cache.

Python floats are modelled as `ℚ` (the pipeline only adds, multiplies, divides
and compares scores; no claim depends on rounding), Python strings as `String`
restricted to ASCII content (all comparisons in the source are `str` operations
or ASCII-oriented regexes), and Python exceptions as `Except`/`Option` with
every `try/except` block translated explicitly.
-/

/- The four field operations of `ℚ` are `@[irreducible]` in this toolchain,
which blocks `decide` on concrete rational arithmetic (the kernel itself
reduces them fine); restore the default reducibility for this development so
that concrete runs of the embedded services evaluate. -/
attribute [local semireducible] Rat.add Rat.sub Rat.mul Rat.inv

/-! ### Basic string utilities mirroring the Python `str`/`re` operations used -/

/-- The apostrophe character, used to build the string literals of the source
(`"I don't know"`, `"couldn't"`, ...). -/
def apos : String := "\x27"

/-- A word character in the sense of the regex class `\w` (`[A-Za-z0-9_]`;
the source only ever feeds ASCII text through these regexes). -/
def isWordChar (c : Char) : Bool := c.isAlphanum || c = '_'

/-- Maximal runs of characters satisfying `p`, in order. -/
def runsAux (p : Char → Bool) : List Char → List Char → List (List Char)
  | cur, [] => if cur.isEmpty then [] else [cur.reverse]
  | cur, c :: rest =>
    if p c then runsAux p (c :: cur) rest
    else if cur.isEmpty then runsAux p [] rest
    else cur.reverse :: runsAux p [] rest

def runsOf (p : Char → Bool) (s : String) : List String :=
  (runsAux p [] s.toList).map List.asString

/-- Maximal runs of word characters of a string, in order: the matches of
`re.findall(r"\b\w+\b", s)`. -/
def wordRuns (s : String) : List String := runsOf isWordChar s

/-- `pat.isPrefixOf s` on char lists. -/
def listPrefix : List Char → List Char → Bool
  | [], _ => true
  | _ :: _, [] => false
  | p :: ps, c :: cs => p = c && listPrefix ps cs

/-- Python's `pat in s` substring test. -/
def listContains (pat : List Char) : List Char → Bool
  | [] => listPrefix pat []
  | c :: cs => listPrefix pat (c :: cs) || listContains pat cs

def strContains (s pat : String) : Bool := listContains pat.toList s.toList

/-- Python `s.lower()` (ASCII; character-wise, as Lean's `String.toLower`).
Implemented over the character list so that concrete runs reduce in the
kernel. -/
def sToLower (s : String) : String := (s.toList.map Char.toLower).asString

/-- Python `s.strip()`: drop leading and trailing whitespace. -/
def sTrim (s : String) : String :=
  (((s.toList.dropWhile Char.isWhitespace).reverse.dropWhile
    Char.isWhitespace).reverse).asString

/-- Split at every character satisfying `p`, keeping empty pieces (the
behaviour of Lean's `String.split`). -/
def splitChars (p : Char → Bool) : List Char → List Char → List (List Char)
  | cur, [] => [cur.reverse]
  | cur, c :: rest =>
    if p c then cur.reverse :: splitChars p [] rest
    else splitChars p (c :: cur) rest

def sSplit (p : Char → Bool) (s : String) : List String :=
  (splitChars p [] s.toList).map List.asString

/-- Python `s.split(sep)` for a non-empty separator: split at each leftmost
non-overlapping occurrence. The fuel is the input length. -/
def splitOnAux (sep : List Char) : Nat → List Char → List Char → List (List Char)
  | 0, cur, _ => [cur.reverse]
  | _ + 1, cur, [] => [cur.reverse]
  | fuel + 1, cur, c :: rest =>
    if listPrefix sep (c :: rest) && !sep.isEmpty then
      cur.reverse :: splitOnAux sep fuel [] ((c :: rest).drop sep.length)
    else splitOnAux sep fuel (c :: cur) rest

def sSplitOn (s sep : String) : List String :=
  if sep = "" then [s]
  else (splitOnAux sep.toList (s.toList.length + 1) [] s.toList).map List.asString

def sStartsWith (s pre : String) : Bool := listPrefix pre.toList s.toList

def sEndsWith (s suf : String) : Bool :=
  listPrefix suf.toList.reverse s.toList.reverse

/-- Occurrence of the literal string `p` with a regex word boundary `\b` on
both sides (all boundary-delimited patterns of the source start and end with a
word character, so the boundary amounts to: the neighbouring characters, when
present, are not word characters). `prev` is the character just before the
current scan position. -/
def hasPhraseWBAux (p : List Char) : Option Char → List Char → Bool
  | prev, s =>
    let beforeOk := match prev with
      | none => true
      | some c => !isWordChar c
    let afterOk := match s.drop p.length with
      | [] => true
      | c :: _ => !isWordChar c
    (beforeOk && listPrefix p s && afterOk) ||
      match s with
      | [] => false
      | c :: rest => hasPhraseWBAux p (some c) rest

/-- `re.search(r"\b" + p + r"\b", s) is not None` for a literal phrase `p`. -/
def hasPhraseWB (p : String) (s : String) : Bool :=
  hasPhraseWBAux p.toList none s.toList

/-- `re.search(r"\b\d+\b", s) is not None`: some maximal word run consists
entirely of digits. -/
def hasNumberWord (s : String) : Bool :=
  (wordRuns s).any fun w => w ≠ "" && w.toList.all Char.isDigit

/-- Python `s.split()`: split on whitespace, dropping empty pieces. -/
def pySplitWs (s : String) : List String :=
  (sSplit Char.isWhitespace s).filter (· ≠ "")

/-- Python `s[:n]` for a natural bound, on strings. -/
def pyTakeStr (s : String) (n : Nat) : String := (s.toList.take n).asString

/-- Python `l[:n]` list slicing, including the negative-bound semantics
(`l[:-k]` drops the last `k` elements). -/
def pyTake {α : Type} (n : Int) (l : List α) : List α :=
  if 0 ≤ n then l.take n.toNat
  else l.take (l.length - min l.length (-n).toNat)

/-- First occurrence split: Python `s.split(pat, 1)` when `pat in s`,
returning the text before and after the first occurrence of `pat`. -/
def splitFirstAux (pat : List Char) : List Char → List Char → Option (List Char × List Char)
  | acc, s =>
    if listPrefix pat s then some (acc.reverse, s.drop pat.length)
    else match s with
      | [] => none
      | c :: rest => splitFirstAux pat (c :: acc) rest

def splitFirst (pat s : String) : Option (String × String) :=
  (splitFirstAux pat.toList [] s.toList).map fun p => (p.1.asString, p.2.asString)

/-- Count of distinct elements shared by two already-deduplicated lists:
`len(set(a) & set(b))` once `a`, `b` are the `dedup`s of the raw lists. -/
def interCount (a b : List String) : Nat := (a.filter (· ∈ b)).length

/-- `len(set(a) | set(b))` for deduplicated `a`, `b`. -/
def unionCount (a b : List String) : Nat := a.length + (b.filter (· ∉ a)).length

/-! ### `vector_store.py` — `VectorStoreService.search` -/

/-- The portion of a chunk's `metadata` map that the pipeline reads
(`start_pos` for positional rerank signals, `entities` for entity matching). -/
structure Meta where
  start_pos : Int
  entities : List String
  deriving DecidableEq, Repr

/-- One entry of `VectorStoreService.metadata` (per-chunk record stored at
`add_chunk`, with the FAISS row id in `index_id`). -/
structure ChunkMeta where
  chunk_id : String
  doc_id : String
  tenant_id : String
  text : String
  index_id : Int
  meta : Meta
  deriving DecidableEq, Repr

/-- A retrieval candidate dict as produced by `search` (and later annotated by
the reranker: `rerank_score` / `rerank_rank` are absent — `none` — until the
reranker adds them). -/
structure Candidate where
  chunk_id : String
  doc_id : String
  text : String
  score : ℚ
  meta : Meta
  rerank_score : Option ℚ := none
  rerank_rank : Option Nat := none
  deriving DecidableEq, Repr

/-- The result-building loop of `VectorStoreService.search` (lines 120–149):
for each FAISS hit `(score, idx)` skip invalid ids, look up the first metadata
entry with that `index_id`, drop other tenants, drop scores below the
threshold, and emit the result dict. -/
def searchImpl (metas : List ChunkMeta) (hits : List (ℚ × Int))
    (tenant_id : String) (similarity_threshold : ℚ) : List Candidate :=
  hits.filterMap fun h =>
    if h.2 = -1 then none
    else
      match metas.find? (fun m => m.index_id = h.2) with
      | none => none
      | some m =>
        if m.tenant_id ≠ tenant_id then none
        else if h.1 < similarity_threshold then none
        else some { chunk_id := m.chunk_id, doc_id := m.doc_id, text := m.text,
                    score := h.1, meta := m.meta }

/-- `VectorStoreService.search` including its `try/except`: the FAISS index is
the injected function `faissIndex` (query embedding and `top_k` to hits, or an
exception); any exception is caught and an empty list returned (lines 154–156). -/
def vsSearch (faissIndex : List ℚ → Nat → Except String (List (ℚ × Int)))
    (metas : List ChunkMeta) (query_embedding : List ℚ) (tenant_id : String)
    (top_k : Nat) (similarity_threshold : ℚ) : List Candidate :=
  match faissIndex query_embedding top_k with
  | .error _ => []
  | .ok hits => searchImpl metas hits tenant_id similarity_threshold

/-! ### `reranker.py` — `RerankerService.rerank` -/

/-- Stable descending insertion by the score component: the element being
inserted came earlier in the original list, so it goes before equal scores.
Together with `sortDesc` this models Python's stable
`list.sort(key=..., reverse=True)`. -/
def insertDesc (x : Nat × ℚ) : List (Nat × ℚ) → List (Nat × ℚ)
  | [] => [x]
  | y :: ys => if x.2 < y.2 then y :: insertDesc x ys else x :: y :: ys

def sortDesc (l : List (Nat × ℚ)) : List (Nat × ℚ) := l.foldr insertDesc []

/-- `RerankerService.rerank` (lines 23–70). The per-candidate combined score
(`0.4·score + 0.3·tfidf + 0.1·length + 0.1·position + 0.1·entity`, line 48) is
taken as the input list `combined` — the verified properties hold for every
value of these numeric signals, and the TF-IDF component is produced by the
external sklearn vectorizer. Structure preserved exactly: empty input, the
`len(candidates) <= top_n` passthrough, stable descending sort of
`(index, score)` pairs, Python slice `[:top_n]`, and the copy-and-annotate of
the selected candidates. -/
def rerank (candidates : List Candidate) (top_n : Int) (combined : List ℚ) :
    List Candidate :=
  if candidates.isEmpty then []
  else if (candidates.length : Int) ≤ top_n then candidates
  else
    let indexed := (List.range candidates.length).map fun i => (i, combined.getD i 0)
    let sorted := sortDesc indexed
    let top := pyTake top_n sorted
    top.enum.map fun p =>
      match candidates.get? p.2.1 with
      | some c => { c with rerank_score := some p.2.2, rerank_rank := some (p.1 + 1) }
      | none => { chunk_id := "", doc_id := "", text := "", score := 0,
                  meta := ⟨0, []⟩ }  -- unreachable: sorted indices < length

/-- The `except` fallback of `rerank` (line 74): `candidates[:top_n]`. -/
def rerankFallback (candidates : List Candidate) (top_n : Int) : List Candidate :=
  pyTake top_n candidates

/-! ### `retrieval.py` — `RetrievalService.retrieve_documents` -/

/-- A formatted retrieval result dict (lines 60–70 of `retrieval.py`). -/
structure Doc where
  chunk_id : String
  doc_id : String
  text : String
  score : ℚ
  rank : Nat
  meta : Meta
  snippet : String
  deriving DecidableEq, Repr

/-- Number of query terms contained in a lowercased window of the text
(the `matches = sum(1 for term in query_terms if term in snippet)` count). -/
def snippetMatches (queryTerms : List String) (window : List Char) : Nat :=
  (queryTerms.filter fun t => listContains t.toList (window.map Char.toLower)).length

/-- `RetrievalService._create_snippet` with the default `max_length=200`:
slide a 200-character window over the text, keep the earliest window with the
strictly largest number of query-term hits, and add ellipses at cut edges. -/
def createSnippet (text query : String) : String :=
  let maxLength := 200
  let tl := text.toList
  let queryTerms := pySplitWs (sToLower query)
  let best := (List.range (tl.length - maxLength)).foldl
    (fun (acc : Nat × Nat) i =>
      let m := snippetMatches queryTerms ((tl.drop i).take maxLength)
      if acc.2 < m then (i, m) else acc) (0, 0)
  let bestPos := best.1
  let snip := ((tl.drop bestPos).take maxLength).asString
  let snip := if 0 < bestPos then "..." ++ snip else snip
  if bestPos + maxLength < tl.length then snip ++ "..." else snip

/-- `RetrievalService.retrieve_documents` (lines 24–77). The embedding
provider is the injected fallible function `embed`; an embedding exception
propagates to the outer `except`, which returns `[]`. The vector search
absorbs index failures itself (`vsSearch`). `combined` is the reranker's
combined-score input as in `rerank`. -/
def retrieveDocuments (embed : String → Except String (List ℚ))
    (faissIndex : List ℚ → Nat → Except String (List (ℚ × Int)))
    (metas : List ChunkMeta) (query tenant_id : String)
    (top_k : Nat) (top_n : Int) (similarity_threshold : ℚ) (combined : List ℚ) :
    List Doc :=
  match embed query with
  | .error _ => []
  | .ok emb =>
    let candidates := vsSearch faissIndex metas emb tenant_id top_k similarity_threshold
    if candidates.isEmpty then []
    else
      let ranked := rerank candidates top_n combined
      ranked.enum.map fun p =>
        { chunk_id := p.2.chunk_id, doc_id := p.2.doc_id, text := p.2.text,
          score := p.2.score, rank := p.1 + 1, meta := p.2.meta,
          snippet := createSnippet p.2.text query }

/-! ### `verification.py` — `VerificationService` -/

/-- Single-word factual-indicator patterns `\b(is|are|...)\b` of
`_is_factual_claim`, in source order (groups 1, 2, 5, 6). -/
def factualWordIndicators : List String :=
  ["is", "are", "was", "were", "has", "have", "had",
   "contains", "includes", "shows", "indicates", "suggests",
   "expires", "expired", "valid", "invalid",
   "domain", "email", "date", "time", "period"]

/-- Phrase indicators `\b(according to|based on|the data shows)\b`. -/
def factualPhraseIndicators : List String :=
  ["according to", "based on", "the data shows"]

/-- The purely-conversational phrases (`in`-substring tests, no boundaries). -/
def conversationalPhrases : List String :=
  ["i apologize", "i" ++ apos ++ "m sorry", "i don" ++ apos ++ "t know",
   "i can" ++ apos ++ "t", "please", "thank you", "you" ++ apos ++ "re welcome"]

/-- `VerificationService._is_factual_claim`: at least one factual-indicator
regex fires on the lowercased sentence, the sentence is not conversational,
and it has at least 3 whitespace tokens. -/
def isFactualClaim (sentence : String) : Bool :=
  let sl := sToLower sentence
  let hasIndicators :=
    factualWordIndicators.any (fun w => hasPhraseWB w sl) ||
    factualPhraseIndicators.any (fun p => hasPhraseWB p sl) ||
    hasNumberWord sl
  let isConversational := conversationalPhrases.any fun p => strContains sl p
  hasIndicators && !isConversational && decide (3 ≤ (pySplitWs sentence).length)

/-- `VerificationService._extract_claims`: split the answer on sentence
punctuation, strip, drop empties / questions / hedged openings, keep factual
claims. `re.split(r"[.!?]+", answer)` collapses delimiter runs into a single
split; splitting per delimiter character instead yields extra empty pieces,
which the loop's `if not sentence: continue` drops, so the extracted claims
agree. -/
def extractClaims (answer : String) : List String :=
  let sentences := sSplit (fun c => c = '.' || c = '!' || c = '?') answer
  sentences.foldr (fun s acc =>
    let s := sTrim s
    if s = "" then acc
    else if sEndsWith s "?" then acc
    else if ["i think", "i believe", "i feel", "i guess"].any
        (fun p => sStartsWith (sToLower s) p) then acc
    else if isFactualClaim s then s :: acc
    else acc) []

/-- `[A-Z][a-z]+` as a whole word: the matches of `\b[A-Z][a-z]+\b` are
exactly the maximal word runs of this shape. -/
def isCapWord (w : String) : Bool :=
  match w.toList with
  | c :: rest => c.isUpper && !rest.isEmpty && rest.all Char.isLower
  | [] => false

/-- A whole word made of digits: the matches of `\b\d+\b` are exactly the
maximal word runs of this shape. -/
def isDigitWord (w : String) : Bool := !w.isEmpty && w.toList.all Char.isDigit

/-- Character class of the e-mail regex (`[A-Za-z0-9._%+-]`, plus `@`). -/
def emailChar (c : Char) : Bool :=
  c.isAlphanum || c = '.' || c = '_' || c = '%' || c = '+' || c = '-' || c = '@'

/-- Shape test `local@domain.tld` (`tld` at least 2 letters) for one maximal
e-mail-alphabet run. -/
def looksLikeEmail (w : String) : Bool :=
  match sSplitOn w "@" with
  | [localPart, domain] =>
    !localPart.isEmpty &&
      (match (sSplitOn domain ".").reverse with
       | tld :: rest :: _ =>
         !rest.isEmpty && decide (2 ≤ tld.length) && tld.toList.all Char.isAlpha
       | _ => false)
  | _ => false

/-- Models `re.findall` of the e-mail pattern
`\b[A-Za-z0-9._%+-]+@[A-Za-z0-9.-]+\.[A-Z|a-z]{2,}\b`: maximal runs over the
e-mail alphabet that decompose as `local@domain.tld`. The regex's exact
boundary/backtracking behaviour on degenerate tokens is approximated; on text
without an `@` the result is `[]`, as in the source. -/
def emailMatches (s : String) : List String :=
  (runsOf emailChar s).filter looksLikeEmail

/-- Character class of the URL regex body (the class `[$-_]` is the ASCII
range `0x24`–`0x5F`, which subsumes digits and uppercase letters). -/
def urlChar (c : Char) : Bool :=
  c.isAlphanum || ('\x24' ≤ c && c ≤ '\x5f') || c = '.' || c = '&' ||
    c = '+' || c = '!' || c = '*' || c = '\\' || c = '(' || c = ')' ||
    c = ',' || c = '%'

/-- Try to read one URL match at the head of `s`: `http`, optional `s`
(greedy), `://`, then a non-empty greedy run of URL characters. Returns the
match and the remaining characters. -/
def urlPrefix (s : List Char) : Option (String × List Char) :=
  let attempt := fun (pre : String) =>
    if listPrefix pre.toList s then
      let body := (s.drop pre.length).takeWhile urlChar
      if body.isEmpty then none
      else some (pre ++ body.asString, s.drop (pre.length + body.length))
    else none
  match attempt "https://" with
  | some r => some r
  | none => attempt "http://"

/-- Models `re.findall` of the URL pattern `http[s]?://(...)+`: leftmost,
non-overlapping, greedy matches. -/
def urlMatchesAux : Nat → List Char → List String
  | 0, _ => []
  | _, [] => []
  | fuel + 1, s =>
    match urlPrefix s with
    | some (m, rem) => m :: urlMatchesAux fuel rem
    | none =>
      match s with
      | [] => []
      | _ :: rest => urlMatchesAux fuel rest

def urlMatches (s : String) : List String := urlMatchesAux s.length s.toList

/-- `VerificationService._extract_entities`: e-mails, URLs, the first 5
capitalized words, the first 3 numbers; `list(set(...))` deduplication is
modelled as first-occurrence `dedup` (Python's set order is unspecified, and
only set-cardinality operations consume the result downstream). -/
def extractEntitiesV (text : String) : List String :=
  (emailMatches text ++ urlMatches text ++
    ((wordRuns text).filter isCapWord).take 5 ++
    ((wordRuns text).filter isDigitWord).take 3).dedup

/-- `VerificationService._has_text_overlap`: at least 30% of the claim's
distinct terms occur among the source's terms. -/
def hasTextOverlap (claim source_text : String) : Bool :=
  let claimTerms := (wordRuns claim).dedup
  let sourceTerms := (wordRuns source_text).dedup
  if claimTerms.isEmpty then false
  else decide ((3 : ℚ) / 10 ≤ (interCount claimTerms sourceTerms : ℚ) / claimTerms.length)

/-- `VerificationService._calculate_semantic_similarity`: Jaccard similarity
of the two lowercased term sets. -/
def semanticSimilarity (claim source_text : String) : ℚ :=
  let cw := (wordRuns (sToLower claim)).dedup
  let sw := (wordRuns (sToLower source_text)).dedup
  if cw.isEmpty || sw.isEmpty then 0
  else
    let u := unionCount cw sw
    if u = 0 then 0 else (interCount cw sw : ℚ) / u

/-- One evidence record. The `matched_text` field of direct/semantic evidence
(`_extract_matched_text` / `_extract_similar_text`) is omitted from the model:
nothing in the pipeline reads it — `verified` and `confidence` depend only on
the per-record `confidence` values. -/
structure Evidence where
  source : Doc
  etype : String
  confidence : ℚ
  matchedEntities : List String := []
  deriving DecidableEq, Repr

/-- `VerificationService._check_entity_matches`. -/
def checkEntityMatches (claim : String) (sources : List Doc) : List Evidence :=
  let claimEntities := extractEntitiesV claim
  sources.filterMap fun src =>
    let srcEntities := src.meta.entities
    if !claimEntities.isEmpty && !srcEntities.isEmpty then
      let overlap := claimEntities.filter (· ∈ srcEntities)
      if !overlap.isEmpty then
        some { source := src, etype := "entity_match",
               confidence := (overlap.length : ℚ) / claimEntities.length,
               matchedEntities := overlap }
      else none
    else none

/-- `VerificationService._verify_single_claim` with the instance threshold
`similarity_threshold = 0.7`: direct lexical overlap (confidence 1, skipping
the semantic check for that source), else semantic similarity ≥ 0.7; then
entity evidence; verified iff some evidence exists with confidence ≥ 0.7. -/
def verifySingleClaim (claim : String) (sources : List Doc) :
    Bool × List Evidence :=
  let ev := sources.foldl (fun acc src =>
    let sourceText := sToLower src.text
    let claimLower := sToLower claim
    if hasTextOverlap claimLower sourceText then
      acc ++ [{ source := src, etype := "direct_match", confidence := 1 }]
    else
      let sim := semanticSimilarity claim sourceText
      if (7 : ℚ) / 10 ≤ sim then
        acc ++ [{ source := src, etype := "semantic_match", confidence := sim }]
      else acc) []
  let ev := ev ++ checkEntityMatches claim sources
  (!ev.isEmpty && ev.any fun e => (7 : ℚ) / 10 ≤ e.confidence, ev)

/-- The result dict of `verify_claims`. The two early returns of the source
carry neither a `verified_claims` nor a `total_claims` key; these absences are
modelled by the defaults `[]` and `none`. -/
structure VerifyResult where
  verified : Bool
  confidence : ℚ
  verified_claims : List String := []
  unverified_claims : List String
  evidence : List Evidence
  total_claims : Option Nat := none
  deriving DecidableEq, Repr

/-- The claim-processing loop of `verify_claims` (lines 45–52): partition the
claims in order into verified/unverified, accumulating evidence only for
verified claims. -/
def verifyLoop (sources : List Doc) (claims : List String) :
    List String × List String × List Evidence :=
  claims.foldl (fun acc c =>
    let r := verifySingleClaim c sources
    if r.1 then (acc.1 ++ [c], acc.2.1, acc.2.2 ++ r.2)
    else (acc.1, acc.2.1 ++ [c], acc.2.2)) ([], [], [])

/-- `VerificationService.verify_claims` (lines 18–74): empty answer or empty
source list short-circuits to `verified=False, confidence=0.0`; an answer with
no extractable claims yields `verified=True, confidence=1.0`; otherwise each
claim is checked and `verified = (no unverified claims)`,
`confidence = verified / total`. -/
def verifyClaims (answer : String) (sources : List Doc) : VerifyResult :=
  if answer = "" ∨ sources = [] then
    { verified := false, confidence := 0, unverified_claims := [], evidence := [] }
  else
    let claims := extractClaims answer
    if claims = [] then
      { verified := true, confidence := 1, unverified_claims := [], evidence := [] }
    else
      let r := verifyLoop sources claims
      { verified := r.2.1.isEmpty,
        confidence := if claims = [] then 1 else (r.1.length : ℚ) / claims.length,
        verified_claims := r.1,
        unverified_claims := r.2.1,
        evidence := r.2.2,
        total_claims := some claims.length }

/-! ### `query_planner.py` — data shapes used across planner and orchestrator -/

/-- One extracted record of `_extract_specific_info`
(`{"type": ..., "value": ..., "source": result}`). -/
structure ExtractedInfo where
  etype : String
  value : String
  source : Doc
  deriving DecidableEq, Repr

/-- The dict returned by `_compare_results`. The `insufficient_data` branch
carries no `count` key, modelled by `none`. -/
structure CompareSummary where
  comparison : String
  count : Option Nat := none
  details : String
  deriving DecidableEq, Repr

/-- The heterogeneous `result` value of a hop dict: a list of ranked documents
(direct/retrieve/filter), extraction records (extract), a comparison summary
(compare), or Python `None` (the error dict). -/
inductive HopPayload where
  | docs : List Doc → HopPayload
  | extracted : List ExtractedInfo → HopPayload
  | comparison : CompareSummary → HopPayload
  | nothing : HopPayload
  deriving DecidableEq, Repr

/-- A hop result dict. The error dict produced by `execute_hop`'s `except`
carries no `hop_type`/`entities` keys; since the only reader of `hop_type`
applies the default `"unknown"` (`_prepare_context`) and `entities` is read
with default `[]`, those defaults are stored directly. The error dict's extra
`hop` key is kept in `hop`; no code reads it. -/
structure HopResult where
  hop_type : String
  subquery : String
  result : HopPayload
  sources : List Doc
  entities : List String
  error : Option String := none
  hop : Option Nat := none
  deriving DecidableEq, Repr

/-! ### `llm_orchestrator.py` — `LLMOrchestrator` -/

/-- The services injected into the orchestrator/planner: the retrieval
service (`retrieve_documents(query, tenant_id)` with its default `top_k`/
`top_n`), the LLM provider (`generate_response(prompt, temperature,
max_tokens)`, fallible), `settings.MAX_TOKENS`, and Python's per-process
string `hash` used in hop-cache keys. -/
structure Env where
  retrieve : String → String → List Doc
  llm : String → ℚ → Nat → Except String String
  maxTokens : Nat
  hashF : String → Int

/-- One entry of `reasoning_traces`. The trace dict built by
`_process_single_generation` has no `answer` key (`none`); the
self-consistency traces do. `trace_id` is a UUID in the source; it is never
inspected, and is modelled as the sample index rendered as a string. -/
structure Trace where
  trace_id : String
  steps : List String
  vote_score : ℚ
  reasoning : String
  answer : Option String := none
  deriving DecidableEq, Repr

/-- The response dict of `process_query` and its helpers. -/
structure QueryResult where
  answer : String
  sources : List Doc
  confidence : ℚ
  reasoning_traces : List Trace
  hop_count : Nat
  verification : Option VerifyResult := none
  error : Option String := none
  deriving DecidableEq, Repr

/-- `LLMOrchestrator._prepare_context` (lines 282–308). -/
def prepareContext (sources : List Doc) (hop_results : List HopResult) : String :=
  let sourceParts :=
    if sources.isEmpty then []
    else
      "Relevant Information:" ::
        ((sources.take 10).enum.map fun p =>
          [toString (p.1 + 1) ++ ". " ++ pyTakeStr p.2.text 500 ++ "...",
           "   Source: " ++ p.2.doc_id, ""]).flatten
  let hopParts :=
    if hop_results.isEmpty then []
    else
      "Multi-hop Analysis:" ::
        (hop_results.enum.map fun p =>
          ("Step " ++ toString (p.1 + 1) ++ " (" ++ p.2.hop_type ++ "): " ++
              p.2.subquery) ::
            (if p.2.sources.isEmpty then []
             else ["Found " ++ toString p.2.sources.length ++ " relevant documents"]) ++
            [""]).flatten
  String.intercalate "\n" (sourceParts ++ hopParts)

/-- `LLMOrchestrator._create_cot_prompt`. -/
def createCotPrompt (question context : String) : String :=
  "You are a helpful AI assistant. Use the following information to answer the question step by step.\n\n"
    ++ context ++ "\n\nQuestion: " ++ question ++
    "\n\nPlease think through this step by step:\n1. What information is relevant to answering this question?\n2. What are the key facts or details I need to consider?\n3. How do these pieces of information relate to each other?\n4. What is the most accurate answer based on the available information?\n\nAnswer:"

/-- `LLMOrchestrator._create_direct_prompt`. -/
def createDirectPrompt (question context : String) : String :=
  "You are a helpful AI assistant. Use the following information to answer the question.\n\n"
    ++ context ++ "\n\nQuestion: " ++ question ++ "\n\nAnswer:"

/-- `LLMOrchestrator._parse_cot_response`: split at the first `"Answer:"`
marker into `(answer, reasoning)`; without a marker the whole stripped
response is the answer. -/
def parseCot (response : String) : String × String :=
  match splitFirst "Answer:" response with
  | some p => (sTrim p.2, sTrim p.1)
  | none => (sTrim response, "")

/-- `LLMOrchestrator._extract_reasoning_steps`: keep stripped lines starting
with a numbered bullet or a bullet character (the first listed bullet is the
source's literal three-character mojibake sequence for U+2022). -/
def extractReasoningSteps (reasoning : String) : List String :=
  (sSplitOn reasoning "\n").foldr (fun line acc =>
    let line := sTrim line
    if line ≠ "" &&
        (["1.", "2.", "3.", "4.", "5."].any (fun p => sStartsWith line p) ||
          ["â€¢", "-", "*"].any fun p => sStartsWith line p) then
      line :: acc
    else acc) []

/-- `LLMOrchestrator._calculate_confidence` (lines 373–393): 0 for an empty
answer or no sources, else `0.7 · (mean source score) + 0.3 · min(words/50, 1)`,
capped at 1. -/
def calculateConfidence (answer : String) (sources : List Doc) : ℚ :=
  if answer = "" ∨ sources = [] then 0
  else
    let scores := sources.map fun s => s.score
    let avg := if scores.isEmpty then 0 else scores.sum / scores.length
    let lengthFactor := min (((pySplitWs answer).length : ℚ) / 50) 1
    min (avg * (7 / 10) + lengthFactor * (3 / 10)) 1

/-- The answer-normalization of `_aggregate_answers`: `answer.lower().strip()`. -/
def normAnswer (s : String) : String := sTrim (sToLower s)

/-- Python dict counting (`answer_counts[normalized] = get(normalized,0)+1`):
increment in place, append new keys — insertion order preserved. -/
def bumpCounts (key : String) : List (String × Nat) → List (String × Nat)
  | [] => [(key, 1)]
  | p :: rest => if p.1 = key then (p.1, p.2 + 1) :: rest else p :: bumpCounts key rest

def answerCounts (answers : List String) : List (String × Nat) :=
  answers.foldl (fun acc a => bumpCounts (normAnswer a) acc) []

/-- Python `max(answer_counts, key=answer_counts.get)` together with the
count lookup: the first key (in dict insertion order) attaining the maximal
count — `max` replaces the running best only on a strictly greater key. -/
def pyMaxByCount (l : List (String × Nat)) : String × Nat :=
  match l with
  | [] => ("", 0)
  | p :: rest => rest.foldl (fun best q => if best.2 < q.2 then q else best) p

/-- `LLMOrchestrator._aggregate_answers` (lines 395–427): no answers yields a
fixed failure string with confidence 0; exactly one answer is returned with
confidence 0.5; otherwise a majority vote over `lower().strip()`-normalized
answers, with `confidence = vote_count / len(answers)` and the first answer
whose normalized form equals the winner returned verbatim (falling back to
`answers[0]`). The `reasoning_traces` argument is accepted and ignored, as in
the source. -/
def aggregateAnswers (answers : List String) (_reasoning_traces : List Trace) :
    String × ℚ :=
  match answers with
  | [] => ("I couldn" ++ apos ++ "t generate a proper answer.", 0)
  | [a] => (a, 1 / 2)
  | _ :: _ :: _ =>
    let counts := answerCounts answers
    let best := pyMaxByCount counts
    let confidence := (best.2 : ℚ) / answers.length
    let ans :=
      match answers.find? (fun a => normAnswer a = best.1) with
      | some a => a
      | none => answers.headI
    (ans, confidence)

/-- The generation-result dict of `_generate_answer`. -/
structure GenResult where
  answer : String
  reasoning : String
  reasoning_steps : List String
  confidence : ℚ
  deriving DecidableEq, Repr

/-- The prompt `_generate_answer` sends to the provider. -/
def buildPrompt (use_cot : Bool) (question : String) (sources : List Doc)
    (hop_results : List HopResult) : String :=
  let contextText := prepareContext sources hop_results
  if use_cot then createCotPrompt question contextText
  else createDirectPrompt question contextText

/-- `LLMOrchestrator._generate_answer` (lines 235–280) including its
`except`: a provider exception is caught and a fixed apology answer with
confidence 0 returned. -/
def generateAnswer (env : Env) (question : String) (sources : List Doc)
    (use_cot : Bool) (temperature : ℚ) (hop_results : List HopResult) :
    GenResult :=
  match env.llm (buildPrompt use_cot question sources hop_results) temperature
      env.maxTokens with
  | .error _ =>
    { answer := "I apologize, but I couldn" ++ apos ++ "t generate a proper response.",
      reasoning := "", reasoning_steps := [], confidence := 0 }
  | .ok response =>
    let p := if use_cot then parseCot response else (response, "")
    let steps := if use_cot then extractReasoningSteps p.2 else []
    { answer := p.1, reasoning := p.2, reasoning_steps := steps,
      confidence := calculateConfidence p.1 sources }

/-- `LLMOrchestrator._process_with_self_consistency` (lines 151–201): issue
`samples` generations at temperatures `0.7 + i·0.1`, collect one trace and
one answer per sample (failed generations contribute the apology answer from
`generateAnswer`), aggregate, verify the final answer against the sources. -/
def processWithSelfConsistency (env : Env) (question : String)
    (sources : List Doc) (use_cot : Bool) (samples : Nat)
    (hop_results : List HopResult) : QueryResult :=
  let gens := (List.range samples).map fun (i : Nat) =>
    generateAnswer env question sources use_cot (7 / 10 + (i : ℚ) * (1 / 10))
      hop_results
  let traces := gens.enum.map fun p =>
    { trace_id := toString p.1, steps := p.2.reasoning_steps,
      vote_score := 1 / (samples : ℚ), reasoning := p.2.reasoning,
      answer := some p.2.answer }
  let answers := gens.map fun g => g.answer
  let agg := aggregateAnswers answers traces
  let ver := verifyClaims agg.1 sources
  { answer := agg.1, sources := sources.take 5, confidence := agg.2,
    reasoning_traces := traces,
    hop_count := if hop_results.isEmpty then 1 else hop_results.length,
    verification := some ver }

/-- `LLMOrchestrator._process_single_generation` (lines 203–229). -/
def processSingleGeneration (env : Env) (question : String)
    (sources : List Doc) (use_cot : Bool) (hop_results : List HopResult) :
    QueryResult :=
  let g := generateAnswer env question sources use_cot (7 / 10) hop_results
  let ver := verifyClaims g.answer sources
  { answer := g.answer, sources := sources.take 5, confidence := g.confidence,
    reasoning_traces := [{ trace_id := "0", steps := g.reasoning_steps,
                           vote_score := 1, reasoning := g.reasoning }],
    hop_count := if hop_results.isEmpty then 1 else hop_results.length,
    verification := some ver }

/-- `LLMOrchestrator._process_single_hop_query` (lines 82–107): empty
retrieval produces a canned no-information answer; otherwise dispatch on
`self_consistency_samples > 1`. -/
def processSingleHop (env : Env) (question tenant_id : String)
    (use_cot : Bool) (samples : Nat) : QueryResult :=
  let docs := env.retrieve question tenant_id
  if docs.isEmpty then
    { answer := "I couldn" ++ apos ++ "t find relevant information to answer your question.",
      sources := [], confidence := 0, reasoning_traces := [], hop_count := 1 }
  else if 1 < samples then
    processWithSelfConsistency env question docs use_cot samples []
  else
    processSingleGeneration env question docs use_cot []

/-! ### `query_planner.py` — `QueryPlanner` -/

/-- The complexity indicator substrings of `_analyze_query_complexity`. -/
def complexIndicators : List String :=
  ["which", "compare", "analyze", "find all", "list all", "what are the",
   "how many", "when did", "where are", "and", "or", "but", "however",
   "additionally"]

/-- `len(re.findall(r"\b(and|or|but|however|additionally)\b", ql))`: the
number of maximal word runs equal to one of the conjunctions. -/
def conjunctionCount (ql : String) : Nat :=
  ((wordRuns ql).filter
    (fun w => w ∈ ["and", "or", "but", "however", "additionally"])).length

/-- `QueryPlanner._analyze_query_complexity` (lines 65–88). -/
def analyzeQueryComplexity (question : String) : String :=
  let ql := sToLower question
  let complexCount := (complexIndicators.filter fun ind => strContains ql ind).length
  let questionMarks := question.toList.count '?'
  let conjunctions := conjunctionCount ql
  if 2 ≤ complexCount ∨ 1 < questionMarks ∨ 2 ≤ conjunctions then "complex"
  else if 1 ≤ complexCount ∨ 1 ≤ conjunctions then "medium"
  else "simple"

/-- `\s+ kw \s+ (.+)` at the head of `s`: at least one whitespace (consumed
greedily), the literal keyword, at least one whitespace, and a non-empty
remainder, which is returned. Trailing-whitespace-only remainders, which the
regex could still match by backtracking `\s+`, are not modelled — no template
of the planner is exercised on such degenerate questions. -/
def sepKwSplit (kw : List Char) (s : List Char) : Option (List Char) :=
  match s with
  | c :: rest =>
    if c.isWhitespace then
      let r := rest.dropWhile Char.isWhitespace
      if listPrefix kw r then
        match r.drop kw.length with
        | d :: r2 =>
          if d.isWhitespace then
            let e := r2.dropWhile Char.isWhitespace
            if e.isEmpty then none else some e
          else none
        | [] => none
      else none
    else none
  | [] => none

/-- All splits of `s` as `(.+?) \s+ kw \s+ (.+)`, shortest first group first —
the candidate order a non-greedy `(.+?)` explores. -/
def dotKwSplitsAux (kw : List Char) :
    List Char → List Char → List (List Char × List Char)
  | _, [] => []
  | e1rev, c :: rest =>
    let e1rev := c :: e1rev
    (match sepKwSplit kw rest with
     | some r => [(e1rev.reverse, r)]
     | none => []) ++ dotKwSplitsAux kw e1rev rest

def dotKwSplits (kw : List Char) (s : List Char) :
    List (List Char × List Char) :=
  dotKwSplitsAux kw [] s

/-- `(.+?)\s+and\s+(.+)`: the first (non-greedy) split. -/
def matchDotAndDot (s : List Char) : Option (List Char × List Char) :=
  (dotKwSplits ['a', 'n', 'd'] s).head?

/-- Leftmost match of `kw \s+ <tail>`: try the keyword at every position (as
`re.search` does), handing the text after the keyword and its following
whitespace run to the tail matcher; on tail failure resume scanning at the
next character. -/
def scanKeyword {α : Type} (kw : List Char) (tail : List Char → Option α) :
    List Char → Option α
  | [] => none
  | c :: rest =>
    let here :=
      if listPrefix kw (c :: rest) then
        match (c :: rest).drop kw.length with
        | d :: r2 =>
          if d.isWhitespace then tail (r2.dropWhile Char.isWhitespace) else none
        | [] => none
      else none
    match here with
    | some r => some r
    | none => scanKeyword kw tail rest

/-- Tail of pattern 1, `which\s+(\w+)\s+do\s+(.+?)\s+and\s+(.+)`, after
`which\s+` has been consumed: a maximal word run, `\s+do\s+`, then the
and-split. -/
def tailWhichDo (s : List Char) :
    Option (List Char × List Char × List Char) :=
  let w := s.takeWhile isWordChar
  if w.isEmpty then none
  else
    match s.drop w.length with
    | c :: r2 =>
      if c.isWhitespace then
        let r3 := r2.dropWhile Char.isWhitespace
        if listPrefix ['d', 'o'] r3 then
          match r3.drop 2 with
          | d :: r4 =>
            if d.isWhitespace then
              match matchDotAndDot (r4.dropWhile Char.isWhitespace) with
              | some p => some (w, p.1, p.2)
              | none => none
            else none
          | [] => none
        else none
      else none
    | [] => none

/-- Tail of pattern 2, `what\s+are\s+the\s+(.+?)\s+and\s+(.+?)\s+of\s+(.+)`,
after `what\s+`: `are\s+the\s+`, then the two non-greedy groups with
backtracking across the `and`-split candidates. -/
def tailWhatAreThe (s : List Char) :
    Option (List Char × List Char × List Char) :=
  if listPrefix ['a', 'r', 'e'] s then
    match s.drop 3 with
    | c :: r2 =>
      if c.isWhitespace then
        let r3 := r2.dropWhile Char.isWhitespace
        if listPrefix ['t', 'h', 'e'] r3 then
          match r3.drop 3 with
          | d :: r4 =>
            if d.isWhitespace then
              (dotKwSplits ['a', 'n', 'd'] (r4.dropWhile Char.isWhitespace)).findSome?
                fun p =>
                  match (dotKwSplits ['o', 'f'] p.2).head? with
                  | some q => some (p.1, q.1, q.2)
                  | none => none
            else none
          | [] => none
        else none
      else none
    | [] => none
  else none

/-- One decomposition sub-query dict (`type` in the source is `qtype` here;
`type` clashes with Lean syntax). -/
structure SubQ where
  query : String
  qtype : String
  dependencies : List Nat := []
  expected_output : String
  context_requirements : List String := []
  deriving DecidableEq, Repr

/-- `QueryPlanner._decompose_query` (lines 90–194): the three linguistic
templates tried in order on the lowercased question, falling back to a single
direct sub-query. -/
def decomposeQuery (question : String) (_max_hops : Nat) : List SubQ :=
  let ql := (sToLower question).toList
  match scanKeyword "which".toList tailWhichDo ql with
  | some m =>
    [{ query := "Find all " ++ m.1.asString ++ " that " ++ m.2.1.asString,
       qtype := "filter", expected_output := "list_of_" ++ m.1.asString,
       context_requirements := ["entity_type", "condition1"] },
     { query := "Check which of these " ++ m.1.asString ++ " also " ++ m.2.2.asString,
       qtype := "filter", dependencies := [0],
       expected_output := "filtered_" ++ m.1.asString,
       context_requirements := ["previous_results", "condition2"] }]
  | none =>
    match scanKeyword "what".toList tailWhatAreThe ql with
    | some m =>
      [{ query := "Find information about " ++ m.2.2.asString, qtype := "retrieve",
         expected_output := "info_about_" ++ m.2.2.asString,
         context_requirements := ["entity"] },
       { query := "Extract " ++ m.1.asString ++ " and " ++ m.2.1.asString ++
            " from the information",
         qtype := "extract", dependencies := [0],
         expected_output := "attributes_of_" ++ m.2.2.asString,
         context_requirements := ["previous_results", "attributes"] }]
    | none =>
      match scanKeyword "compare".toList matchDotAndDot ql with
      | some m =>
        [{ query := "Find information about " ++ m.1.asString, qtype := "retrieve",
           expected_output := "info_about_" ++ m.1.asString,
           context_requirements := ["entity1"] },
         { query := "Find information about " ++ m.2.asString, qtype := "retrieve",
           expected_output := "info_about_" ++ m.2.asString,
           context_requirements := ["entity2"] },
         { query := "Compare the information about " ++ m.1.asString ++ " and " ++
              m.2.asString,
           qtype := "compare", dependencies := [0, 1],
           expected_output := "comparison_result",
           context_requirements := ["both_results"] }]
      | none =>
        [{ query := question, qtype := "direct", expected_output := "answer" }]

/-- One entry of the execution plan built by `plan_query`. -/
structure HopPlan where
  hop : Nat
  subquery : String
  qtype : String
  dependencies : List Nat
  expected_output : String
  context_requirements : List String
  deriving DecidableEq, Repr

/-- `QueryPlanner.plan_query` (lines 19–63): simple questions (or
`max_hops == 1`) yield the trivial single direct hop (whose dict carries no
`context_requirements` key — never read; modelled `[]`); otherwise the
decomposition is numbered into an execution plan. -/
def planQuery (question : String) (max_hops : Nat) : List HopPlan :=
  let complexity := analyzeQueryComplexity question
  if complexity = "simple" ∨ max_hops = 1 then
    [{ hop := 1, subquery := question, qtype := "direct", dependencies := [],
       expected_output := "answer", context_requirements := [] }]
  else
    (decomposeQuery question max_hops).enum.map fun p =>
      { hop := p.1 + 1, subquery := p.2.query, qtype := p.2.qtype,
        dependencies := p.2.dependencies,
        expected_output := p.2.expected_output,
        context_requirements := p.2.context_requirements }

/-- The mutable context dict threaded through `_process_multi_hop_query`. -/
structure Ctx where
  tenant_id : Option String
  question : String
  previous_results : List Doc := []
  entities : List String := []

/-- The `QueryPlanner` instance state: the `hop_cache` dict created once in
`__init__` and living for the whole life of the planner object. -/
structure PlannerState where
  hop_cache : List (String × HopResult)
  deriving DecidableEq, Repr

def lookupCache (cache : List (String × HopResult)) (k : String) :
    Option HopResult :=
  (cache.find? fun p => p.1 = k).map fun p => p.2

/-- The cache key `f"hop_{hop_number}_{hash(subquery)}"` of `execute_hop`
(line 207); `hash` is Python's per-process string hash, injected via
`Env.hashF`. -/
def hopKey (env : Env) (hp : HopPlan) : String :=
  "hop_" ++ toString hp.hop ++ "_" ++ toString (env.hashF hp.subquery)

/-- `QueryPlanner._extract_entities_from_results`; `list(set(...))` is
modelled as first-occurrence `dedup` (Python set order is unspecified; the
result is only ever stored into the context's unread `entities` slot). -/
def extractEntitiesFromResults (results : List Doc) : List String :=
  ((results.map fun r => r.meta.entities).flatten).dedup

/-- `QueryPlanner._matches_filter_criteria`. -/
def matchesFilterCriteria (result : Doc) (filter_query : String) : Bool :=
  let text := sToLower result.text
  (pySplitWs (sToLower filter_query)).any fun k => strContains text k

/-- Date separators of the pattern `\b\d{1,2}[slash or dash]\d{1,2}[slash or dash]\d{2,4}\b`. -/
def dateSep (c : Char) : Bool := c = '/' || c = '-'

/-- Digit-run candidates of length `maxL` down to `minL` at the head of `s`
(the order a greedy bounded repetition backtracks through). -/
def digitSeg (minL maxL : Nat) (s : List Char) : List (List Char × List Char) :=
  ((List.range (maxL + 1 - minL)).map fun k => maxL - k).filterMap fun len =>
    let run := s.take len
    if run.length == len && decide (minL ≤ len) && run.all Char.isDigit then
      some (run, s.drop len)
    else none

/-- One attempt of the date pattern at the head of `s` (boundary before the
match is checked by the caller). -/
def tryDateAt (s : List Char) : Option (List Char × List Char) :=
  (digitSeg 1 2 s).findSome? fun p1 =>
    match p1.2 with
    | c1 :: r1 =>
      if dateSep c1 then
        (digitSeg 1 2 r1).findSome? fun p2 =>
          match p2.2 with
          | c2 :: r2 =>
            if dateSep c2 then
              (digitSeg 2 4 r2).findSome? fun p3 =>
                let afterOk := match p3.2 with
                  | [] => true
                  | d :: _ => !isWordChar d
                if afterOk then
                  some (p1.1 ++ c1 :: p2.1 ++ c2 :: p3.1, p3.2)
                else none
            else none
          | [] => none
      else none
    | [] => none

/-- Models `re.findall(r"\b\d{1,2}[slash or dash]\d{1,2}[slash or dash]\d{2,4}\b", s)`: leftmost
non-overlapping matches with word boundaries. -/
def dateMatchesAux : Nat → Option Char → List Char → List String
  | 0, _, _ => []
  | _, _, [] => []
  | fuel + 1, prev, c :: rest =>
    let beforeOk := match prev with
      | none => true
      | some d => !isWordChar d
    match (if beforeOk then tryDateAt (c :: rest) else none) with
    | some p => p.1.asString :: dateMatchesAux fuel p.1.getLast? p.2
    | none => dateMatchesAux fuel (some c) rest

def dateMatches (s : String) : List String :=
  dateMatchesAux s.length none s.toList

/-- `QueryPlanner._extract_specific_info` (lines 328–347). -/
def extractSpecificInfo (result : Doc) (extraction_query : String) :
    Option ExtractedInfo :=
  let eq := sToLower extraction_query
  let dateHit := if strContains eq "date" then (dateMatches result.text).head?
    else none
  match dateHit with
  | some d => some { etype := "date", value := d, source := result }
  | none =>
    let emailHit := if strContains eq "email" then (emailMatches result.text).head?
      else none
    match emailHit with
    | some e => some { etype := "email", value := e, source := result }
    | none => none

/-- `QueryPlanner._compare_results`. -/
def compareResults (results : List Doc) (_comparison_query : String) :
    CompareSummary :=
  if results.length < 2 then
    { comparison := "insufficient_data",
      details := "Need at least 2 results to compare" }
  else
    { comparison := "basic_comparison", count := some results.length,
      details := "Found " ++ toString results.length ++ " results for comparison" }

/-- `QueryPlanner._execute_direct_hop` (also serving `retrieve` hops and the
unknown-type fallback): raises — modelled as `.error` — when the context has
no truthy `tenant_id`, otherwise calls the injected retrieval service. -/
def execDirectHop (env : Env) (subquery : String) (ctx : Ctx) :
    Except String HopResult :=
  match ctx.tenant_id with
  | none => .error "tenant_id required for retrieval"
  | some t =>
    if t = "" then .error "tenant_id required for retrieval"
    else
      let results := env.retrieve subquery t
      .ok { hop_type := "direct", subquery := subquery, result := .docs results,
            sources := results, entities := extractEntitiesFromResults results }

/-- `QueryPlanner._execute_filter_hop`. -/
def execFilterHop (subquery : String) (ctx : Ctx) : HopResult :=
  let filtered := ctx.previous_results.filter fun r => matchesFilterCriteria r subquery
  { hop_type := "filter", subquery := subquery, result := .docs filtered,
    sources := filtered, entities := extractEntitiesFromResults filtered }

/-- `QueryPlanner._execute_extract_hop`. Its `entities` are computed by
`_extract_entities_from_results` over the extraction dicts, which have no
`metadata` key, so the result is always `[]`. -/
def execExtractHop (subquery : String) (ctx : Ctx) : HopResult :=
  let extracted := ctx.previous_results.filterMap fun r =>
    extractSpecificInfo r subquery
  { hop_type := "extract", subquery := subquery, result := .extracted extracted,
    sources := ctx.previous_results, entities := [] }

/-- `QueryPlanner._execute_compare_hop`. -/
def execCompareHop (subquery : String) (ctx : Ctx) : HopResult :=
  { hop_type := "compare", subquery := subquery,
    result := .comparison (compareResults ctx.previous_results subquery),
    sources := ctx.previous_results, entities := [] }

/-- `QueryPlanner.execute_hop` (lines 196–239): consult `self.hop_cache`
under `hop_{n}_{hash(subquery)}`; on a hit return the cached dict unchanged;
on a miss dispatch on the hop type, cache the result, and return it. An
exception (only the missing-tenant `ValueError` in the model) is caught and
turned into the error dict — note it skips the caching line, so nothing is
cached. -/
def executeHop (env : Env) (hp : HopPlan) (ctx : Ctx) (st : PlannerState) :
    HopResult × PlannerState :=
  let key := hopKey env hp
  match lookupCache st.hop_cache key with
  | some r => (r, st)
  | none =>
    let computed : Except String HopResult :=
      if hp.qtype = "direct" then execDirectHop env hp.subquery ctx
      else if hp.qtype = "filter" then .ok (execFilterHop hp.subquery ctx)
      else if hp.qtype = "retrieve" then execDirectHop env hp.subquery ctx
      else if hp.qtype = "extract" then .ok (execExtractHop hp.subquery ctx)
      else if hp.qtype = "compare" then .ok (execCompareHop hp.subquery ctx)
      else execDirectHop env hp.subquery ctx
    match computed with
    | .ok r => (r, { hop_cache := st.hop_cache ++ [(key, r)] })
    | .error e =>
      ({ hop_type := "unknown", subquery := hp.subquery, result := .nothing,
         sources := [], entities := [], error := some e, hop := some hp.hop }, st)

/-- `context["previous_results"] = hop_result.get("result", [])`: only a
document list is usable downstream. A comparison summary / extraction list /
`None` in this slot occurs only when a compare or error hop is not last — no
plan generated by `planQuery` does that (in the source such a value would
make a following filter/extract hop match nothing or raise). -/
def payloadDocs : HopPayload → List Doc
  | .docs l => l
  | _ => []

/-- One iteration of `_process_multi_hop_query`'s hop loop: execute the hop
against the current context and planner state, push the hop's `result` and
`entities` into the context, thread the state, append the hop result. -/
def multiHopStep (env : Env) (acc : Ctx × PlannerState × List HopResult)
    (hp : HopPlan) : Ctx × PlannerState × List HopResult :=
  let r := executeHop env hp acc.1 acc.2.1
  ({ acc.1 with previous_results := payloadDocs r.1.result,
                entities := r.1.entities },
   r.2, acc.2.2 ++ [r.1])

/-- `LLMOrchestrator._process_multi_hop_query` (lines 113–149): run the hops
in plan order, threading the context and the planner's cache state, then
answer over the concatenated hop sources. -/
def processMultiHop (env : Env) (question tenant_id : String)
    (plan : List HopPlan) (use_cot : Bool) (samples : Nat) (st : PlannerState) :
    QueryResult × PlannerState :=
  let init : Ctx × PlannerState × List HopResult :=
    ({ tenant_id := some tenant_id, question := question }, st, [])
  let final := plan.foldl (multiHopStep env) init
  let hop_results := final.2.2
  let all_sources := (hop_results.map fun r => r.sources).flatten
  if 1 < samples then
    (processWithSelfConsistency env question all_sources use_cot samples
      hop_results, final.2.1)
  else
    (processSingleGeneration env question all_sources use_cot hop_results,
     final.2.1)

/-- `LLMOrchestrator.process_query` (lines 43–80). `use_cot` and `samples`
are the option values after the `options.get(..., settings default)`
resolution. The planner state is the orchestrator's long-lived
`QueryPlanner` instance: `process_query` neither creates nor clears the hop
cache. The top-level `except` is unreachable in the model — every inner
failure is absorbed below it, exactly as in the source's nominal paths. -/
def processQuery (env : Env) (question tenant_id : String) (max_hops : Nat)
    (use_cot : Bool) (samples : Nat) (st : PlannerState) :
    QueryResult × PlannerState :=
  let plan := planQuery question max_hops
  if plan.length = 1 then
    (processSingleHop env question tenant_id use_cot samples, st)
  else
    processMultiHop env question tenant_id plan use_cot samples st

/-! ### Derived views used by the verification statements -/

/-- The list of answers sampled by `_process_with_self_consistency` — the
`answers` accumulator of its loop. -/
def sampleAnswers (env : Env) (question : String) (sources : List Doc)
    (use_cot : Bool) (samples : Nat) (hop_results : List HopResult) :
    List String :=
  ((List.range samples).map fun (i : Nat) =>
    generateAnswer env question sources use_cot (7 / 10 + (i : ℚ) * (1 / 10))
      hop_results).map fun g => g.answer

/-- Count associated with a key in an association list (`0` when absent). -/
def cntOf (acc : List (String × Nat)) (x : String) : Nat :=
  ((acc.find? fun p => p.1 = x).map Prod.snd).getD 0

/-- `answerCounts` stripped of the normalization step: fold `bumpCounts` over
a plain key list. -/
def keyCounts (ks : List String) : List (String × Nat) :=
  ks.foldl (fun acc k => bumpCounts k acc) []

/-! ### Shared fixtures for concrete witnesses and counterexamples -/

def mW : Meta := { start_pos := 0, entities := [] }

def chunkW : ChunkMeta :=
  { chunk_id := "cW", doc_id := "dW", tenant_id := "t1", text := "hello",
    index_id := 0, meta := mW }

def candW : Candidate :=
  { chunk_id := "c0", doc_id := "d0", text := "t0", score := 1 / 2, meta := mW }

def candW2 : Candidate :=
  { chunk_id := "c1", doc_id := "d1", text := "t1", score := 1 / 3, meta := mW }

def resW : Candidate :=
  { chunk_id := "cW", doc_id := "dW", text := "hello", score := 1, meta := mW }

/-- `candW2` as annotated by a rerank run that put it first. -/
def candW2r : Candidate :=
  { chunk_id := "c1", doc_id := "d1", text := "t1", score := 1 / 3, meta := mW,
    rerank_score := some (7 / 10), rerank_rank := some 1 }

def faissW : List ℚ → Nat → Except String (List (ℚ × Int)) :=
  fun _ _ => .ok [(1, 0)]

def faissFailW : List ℚ → Nat → Except String (List (ℚ × Int)) :=
  fun _ _ => .error "index failure"

def embedOkW : String → Except String (List ℚ) := fun _ => .ok [1]

def embedFailW : String → Except String (List ℚ) :=
  fun _ => .error "embedding failure"

def srcW : Doc :=
  { chunk_id := "s", doc_id := "s", text := "alpha", score := 1 / 2, rank := 1,
    meta := mW, snippet := "alpha" }

def docAW : Doc :=
  { chunk_id := "cA", doc_id := "dA", text := "alpha evidence", score := 9 / 10,
    rank := 1, meta := mW, snippet := "alpha evidence" }

def docBW : Doc :=
  { chunk_id := "cB", doc_id := "dB", text := "beta evidence", score := 8 / 10,
    rank := 1, meta := mW, snippet := "beta evidence" }

/-- Provider that answers every prompt with `"Paris"`. -/
def envOkW : Env :=
  { retrieve := fun _ _ => [docAW], llm := fun _ _ _ => .ok "Paris",
    maxTokens := 1000, hashF := fun s => (s.length : Int) }

/-- Provider that fails at the base temperature `0.7` (the first sample) and
answers `"Paris"` at every other temperature. -/
def envFailW : Env :=
  { retrieve := fun _ _ => [docAW],
    llm := fun _ t _ => if t = 7 / 10 then .error "timeout" else .ok "Paris",
    maxTokens := 1000, hashF := fun s => (s.length : Int) }

/-- Provider whose every generation fails. -/
def envAllFailW : Env :=
  { retrieve := fun _ _ => [docAW], llm := fun _ _ _ => .error "down",
    maxTokens := 1000, hashF := fun s => (s.length : Int) }

/-- Retrieval environment of the first top-level query (documents `docAW`). -/
def env1W : Env :=
  { retrieve := fun _ _ => [docAW], llm := fun _ _ _ => .ok "ans",
    maxTokens := 1000, hashF := fun s => (s.length : Int) }

/-- Same orchestrator after the corpus changed: retrieval now yields `docBW`. -/
def env2W : Env :=
  { retrieve := fun _ _ => [docBW], llm := fun _ _ _ => .ok "ans",
    maxTokens := 1000, hashF := fun s => (s.length : Int) }

def st0W : PlannerState := { hop_cache := [] }

def hopResW : HopResult :=
  { hop_type := "direct", subquery := "s", result := .docs [docAW],
    sources := [docAW], entities := [] }

def stCacheW : PlannerState := { hop_cache := [("k", hopResW)] }

def hpW : HopPlan :=
  { hop := 1, subquery := "s", qtype := "direct", dependencies := [],
    expected_output := "answer", context_requirements := [] }

def ctxW : Ctx := { tenant_id := some "t1", question := "q" }

/-- A planner state already holding a cached result under `hpW`'s cache key
(`hashF` of `env1W` is the string length, so the key is `hop_1_1`). -/
def stKeyW : PlannerState := { hop_cache := [("hop_1_1", hopResW)] }

/-! ### Helper lemmas on the list plumbing of the embedded services -/

theorem lem_insertDesc_mem (x : Nat × ℚ) (l : List (Nat × ℚ)) :
    ∀ y ∈ insertDesc x l, y = x ∨ y ∈ l := by
  induction l with
  | nil =>
    intro y hy
    simp only [insertDesc, List.mem_singleton] at hy
    exact Or.inl hy
  | cons a t ih =>
    intro y hy
    simp only [insertDesc] at hy
    split at hy
    · rcases List.mem_cons.mp hy with h | h
      · exact Or.inr (List.mem_cons.mpr (Or.inl h))
      · rcases ih y h with h' | h'
        · exact Or.inl h'
        · exact Or.inr (List.mem_cons.mpr (Or.inr h'))
    · rcases List.mem_cons.mp hy with h | h
      · exact Or.inl h
      · exact Or.inr h

theorem lem_sortDesc_mem (l : List (Nat × ℚ)) : ∀ y ∈ sortDesc l, y ∈ l := by
  induction l with
  | nil => intro y hy; exact hy
  | cons a t ih =>
    intro y hy
    have : y ∈ insertDesc a (sortDesc t) := hy
    rcases lem_insertDesc_mem a (sortDesc t) y this with h | h
    · exact h ▸ List.mem_cons_self a t
    · exact List.mem_cons.mpr (Or.inr (ih y h))

theorem lem_pyTake_mem {α : Type} {n : Int} {l : List α} :
    ∀ y ∈ pyTake n l, y ∈ l := by
  intro y hy
  unfold pyTake at hy
  split at hy
  · exact List.mem_of_mem_take hy
  · exact List.mem_of_mem_take hy

theorem lem_pyTake_length {α : Type} (n : Int) (l : List α) (h : 0 ≤ n) :
    (pyTake n l).length ≤ n.toNat := by
  unfold pyTake
  rw [if_pos h]
  simp [List.length_take]

theorem lem_enumFrom_snd_mem {α : Type} :
    ∀ (n : Nat) (l : List α) (p : Nat × α), p ∈ l.enumFrom n → p.2 ∈ l := by
  intro n l
  induction l generalizing n with
  | nil => intro p hp; simp [List.enumFrom] at hp
  | cons a t ih =>
    intro p hp
    rcases List.mem_cons.mp hp with h | h
    · subst h; exact List.mem_cons_self a t
    · exact List.mem_cons.mpr (Or.inr (ih (n + 1) p h))

theorem lem_enum_snd_mem {α : Type} {l : List α} {p : Nat × α}
    (h : p ∈ l.enum) : p.2 ∈ l :=
  lem_enumFrom_snd_mem 0 l p h

/-- Soundness of the rerank output: every emitted candidate is one of the
inputs, with only the rerank annotations changed. -/
theorem lem_rerank_sound {candidates : List Candidate} {top_n : Int}
    {combined : List ℚ} {out : Candidate}
    (h : out ∈ rerank candidates top_n combined) :
    ∃ c ∈ candidates, out.chunk_id = c.chunk_id ∧ out.doc_id = c.doc_id ∧
      out.text = c.text ∧ out.score = c.score ∧ out.meta = c.meta := by
  unfold rerank at h
  split at h
  · simp at h
  · split at h
    · exact ⟨out, h, rfl, rfl, rfl, rfl, rfl⟩
    · rw [List.mem_map] at h
      obtain ⟨p, hp, hfp⟩ := h
      have hmem : p.2 ∈ pyTake top_n (sortDesc
          ((List.range candidates.length).map
            fun i => (i, combined.getD i 0))) := lem_enum_snd_mem hp
      have hsorted := lem_pyTake_mem _ hmem
      have hidx := lem_sortDesc_mem _ _ hsorted
      rw [List.mem_map] at hidx
      obtain ⟨i, hi, hpi⟩ := hidx
      have hilt : i < candidates.length := List.mem_range.mp hi
      have hget : candidates.get? p.2.1 = some (candidates.get ⟨i, hilt⟩) := by
        rw [← hpi]
        exact List.get?_eq_get hilt
      refine ⟨candidates.get ⟨i, hilt⟩, List.get_mem candidates i hilt, ?_⟩
      rw [hget] at hfp
      rw [← hfp]
      exact ⟨rfl, rfl, rfl, rfl, rfl⟩

/-- Soundness of the search loop: every emitted result comes from a stored
metadata entry of the queried tenant, with the threshold respected. -/
theorem lem_searchImpl_sound {metas : List ChunkMeta} {hits : List (ℚ × Int)}
    {tenant_id : String} {thr : ℚ} {r : Candidate}
    (hr : r ∈ searchImpl metas hits tenant_id thr) :
    ∃ m ∈ metas, m.tenant_id = tenant_id ∧ r.chunk_id = m.chunk_id ∧
      r.doc_id = m.doc_id ∧ r.text = m.text ∧ r.meta = m.meta ∧ thr ≤ r.score := by
  unfold searchImpl at hr
  rw [List.mem_filterMap] at hr
  obtain ⟨h, -, heq⟩ := hr
  split at heq
  · simp at heq
  · split at heq
    · simp at heq
    · rename_i m hfind
      split at heq
      · simp at heq
      · split at heq
        · simp at heq
        · rename_i ht hs
          have hr' := Option.some.inj heq
          refine ⟨m, List.mem_of_find?_eq_some hfind, not_ne_iff.mp ht, ?_⟩
          rw [← hr']
          exact ⟨rfl, rfl, rfl, rfl, not_lt.mp hs⟩

/-- `vsSearch` soundness: the exception branch returns nothing, so every
result satisfies the search-loop guarantees. -/
theorem lem_vsSearch_sound
    {faissIndex : List ℚ → Nat → Except String (List (ℚ × Int))}
    {metas : List ChunkMeta} {emb : List ℚ} {tenant_id : String} {top_k : Nat}
    {thr : ℚ} {r : Candidate}
    (hr : r ∈ vsSearch faissIndex metas emb tenant_id top_k thr) :
    ∃ m ∈ metas, m.tenant_id = tenant_id ∧ r.chunk_id = m.chunk_id ∧
      r.doc_id = m.doc_id ∧ r.text = m.text ∧ r.meta = m.meta ∧ thr ≤ r.score := by
  unfold vsSearch at hr
  cases hfa : faissIndex emb top_k with
  | error e => rw [hfa] at hr; simp at hr
  | ok hits => rw [hfa] at hr; exact lem_searchImpl_sound hr

/-! ### Claim theorems: vector search, retrieval, reranker -/

/-- C1 — Tenant isolation: for every stored metadata map, every FAISS index
behaviour, every query embedding, tenant id, `top_k` and similarity threshold,
each candidate returned by `VectorStoreService.search` corresponds to a stored
chunk whose `tenant_id` equals the queried tenant; a chunk of any other tenant
never appears. -/
theorem search_tenant_isolation
    (faissIndex : List ℚ → Nat → Except String (List (ℚ × Int)))
    (metas : List ChunkMeta) (query_embedding : List ℚ) (tenant_id : String)
    (top_k : Nat) (similarity_threshold : ℚ) (r : Candidate)
    (hr : r ∈ vsSearch faissIndex metas query_embedding tenant_id top_k
      similarity_threshold) :
    ∃ m ∈ metas, m.tenant_id = tenant_id ∧ r.chunk_id = m.chunk_id ∧
      r.doc_id = m.doc_id ∧ r.text = m.text := by
  obtain ⟨m, hm, ht, h1, h2, h3, -, -⟩ := lem_vsSearch_sound hr
  exact ⟨m, hm, ht, h1, h2, h3⟩

/-- Witness for C1 at a concrete store: the search over a one-chunk store of
tenant `t1` returns that chunk by this tenant. -/
theorem search_tenant_isolation_witness :
    resW ∈ vsSearch faissW [chunkW] [1] "t1" 50 (7 / 10) ∧
      ∃ m ∈ [chunkW], m.tenant_id = "t1" ∧ resW.chunk_id = m.chunk_id ∧
        resW.doc_id = m.doc_id ∧ resW.text = m.text :=
  ⟨by decide,
   search_tenant_isolation faissW [chunkW] [1] "t1" 50 (7 / 10) resW (by decide)⟩

/-- C6 — Threshold respected: every candidate emitted by the vector-store
search scores at least the similarity threshold; the property is preserved
through `retrieve_documents` (reranking and formatting keep the original
score); and an empty search result makes retrieval return an empty list (a
normal value, not an error). -/
theorem retrieve_threshold_respected :
    (∀ (metas : List ChunkMeta) (hits : List (ℚ × Int)) (tenant_id : String)
        (thr : ℚ) (r : Candidate),
      r ∈ searchImpl metas hits tenant_id thr → thr ≤ r.score) ∧
    (∀ (embed : String → Except String (List ℚ))
        (faissIndex : List ℚ → Nat → Except String (List (ℚ × Int)))
        (metas : List ChunkMeta) (query tenant_id : String) (top_k : Nat)
        (top_n : Int) (thr : ℚ) (combined : List ℚ) (d : Doc),
      d ∈ retrieveDocuments embed faissIndex metas query tenant_id top_k top_n
        thr combined → thr ≤ d.score) ∧
    (∀ (embed : String → Except String (List ℚ))
        (faissIndex : List ℚ → Nat → Except String (List (ℚ × Int)))
        (metas : List ChunkMeta) (query tenant_id : String) (top_k : Nat)
        (top_n : Int) (thr : ℚ) (combined : List ℚ) (e : List ℚ),
      embed query = Except.ok e →
      vsSearch faissIndex metas e tenant_id top_k thr = [] →
      retrieveDocuments embed faissIndex metas query tenant_id top_k top_n thr
        combined = []) := by
  refine ⟨?_, ?_, ?_⟩
  · intro metas hits tenant_id thr r hr
    obtain ⟨-, -, -, -, -, -, -, hs⟩ := lem_searchImpl_sound hr
    exact hs
  · intro embed faissIndex metas query tenant_id top_k top_n thr combined d hd
    cases hemb : embed query with
    | error e => simp only [retrieveDocuments, hemb] at hd; simp at hd
    | ok e =>
      simp only [retrieveDocuments, hemb] at hd
      split at hd
      · simp at hd
      · rw [List.mem_map] at hd
        obtain ⟨q, hq, hfq⟩ := hd
        have hmr : q.2 ∈ rerank (vsSearch faissIndex metas e tenant_id top_k thr)
            top_n combined := lem_enum_snd_mem hq
        obtain ⟨c, hc, -, -, -, hsc, -⟩ := lem_rerank_sound hmr
        obtain ⟨-, -, -, -, -, -, -, hthr⟩ := lem_vsSearch_sound hc
        have : d.score = q.2.score := by rw [← hfq]
        rw [this, hsc]
        exact hthr
  · intro embed faissIndex metas query tenant_id top_k top_n thr combined e
      hemb hempty
    simp [retrieveDocuments, hemb, hempty]

/-- Witness for C6: concrete instantiations of all three parts. -/
theorem retrieve_threshold_respected_witness :
    ((7 : ℚ) / 10 ≤ resW.score) ∧
    (∀ d ∈ retrieveDocuments embedOkW faissW [chunkW] "q" "t1" 50 5 (7 / 10) [],
      (7 : ℚ) / 10 ≤ d.score) ∧
    retrieveDocuments embedOkW faissW [] "q" "t1" 50 5 (7 / 10) [] = [] :=
  ⟨retrieve_threshold_respected.1 [chunkW] [(1, 0)] "t1" (7 / 10) resW (by decide),
   fun d hd => retrieve_threshold_respected.2.1 embedOkW faissW [chunkW] "q" "t1"
     50 5 (7 / 10) [] d hd,
   retrieve_threshold_respected.2.2 embedOkW faissW [] "q" "t1" 50 5 (7 / 10) []
     [1] rfl (by decide)⟩

/-- C5 (amended) — Rerank passthrough: whenever `len(candidates) ≤ top_n`,
`rerank` returns the candidate list itself — unchanged, in the original order,
and in particular without adding any `rerank_rank`/`rerank_score` annotation. -/
theorem rerank_passthrough_identity (candidates : List Candidate)
    (top_n : Int) (combined : List ℚ)
    (h : (candidates.length : Int) ≤ top_n) :
    rerank candidates top_n combined = candidates := by
  unfold rerank
  by_cases he : candidates.isEmpty
  · rw [if_pos he]
    exact (List.isEmpty_iff.mp he).symm
  · rw [if_neg he, if_pos h]

/-- Witness for C5 (amended) at one candidate and `top_n = 5`. -/
theorem rerank_passthrough_identity_witness :
    (([candW] : List Candidate).length : Int) ≤ 5 ∧
      rerank [candW] 5 [] = [candW] :=
  ⟨by decide, rerank_passthrough_identity [candW] 5 [] (by decide)⟩

/-- Counterexample to C5 as stated: the passthrough branch returns the input
dicts untouched, so the returned candidate carries no `rerank_rank` — the
claimed `rerank_rank = position + 1` (= `some 1` here) does not hold. -/
theorem rerank_passthrough_counterexample :
    rerank [candW] 5 [] = [candW] ∧
      ((rerank [candW] 5 []).map fun c => c.rerank_rank) ≠ [some 1] := by
  decide

/-- C10 (amended) — Rerank containment, for non-negative `top_n`: the rerank
output (and the exception-fallback output) has length at most `top_n`, and
every returned element is one of the input candidates up to the added
`rerank_score`/`rerank_rank` annotations. For negative `top_n` the Python
slice `[:top_n]` instead keeps all but the last `|top_n|` elements (see the
counterexample). -/
theorem rerank_containment :
    (∀ (candidates : List Candidate) (top_n : Int) (combined : List ℚ),
      0 ≤ top_n → (rerank candidates top_n combined).length ≤ top_n.toNat) ∧
    (∀ (candidates : List Candidate) (top_n : Int) (combined : List ℚ)
        (out : Candidate), out ∈ rerank candidates top_n combined →
      ∃ c ∈ candidates, out.chunk_id = c.chunk_id ∧ out.doc_id = c.doc_id ∧
        out.text = c.text ∧ out.score = c.score ∧ out.meta = c.meta) ∧
    (∀ (candidates : List Candidate) (top_n : Int), 0 ≤ top_n →
      (rerankFallback candidates top_n).length ≤ top_n.toNat) ∧
    (∀ (candidates : List Candidate) (top_n : Int),
      ∀ out ∈ rerankFallback candidates top_n, out ∈ candidates) := by
  refine ⟨?_, ?_, ?_, ?_⟩
  · intro candidates top_n combined h
    unfold rerank
    by_cases he : candidates.isEmpty
    · rw [if_pos he]; simp
    · rw [if_neg he]
      by_cases hlen : (candidates.length : Int) ≤ top_n
      · rw [if_pos hlen]
        exact (Int.le_toNat h).mpr hlen
      · rw [if_neg hlen]
        calc _ = (pyTake top_n (sortDesc ((List.range candidates.length).map
              fun i => (i, combined.getD i 0)))).length := by
              rw [List.length_map, List.enum_length]
          _ ≤ top_n.toNat := lem_pyTake_length _ _ h
  · intro candidates top_n combined out h
    exact lem_rerank_sound h
  · intro candidates top_n h
    exact lem_pyTake_length _ _ h
  · intro candidates top_n out h
    exact lem_pyTake_mem out h

/-- Witness for C10 (amended): concrete instantiations. -/
theorem rerank_containment_witness :
    (rerank [candW, candW2] 1 [3 / 10, 7 / 10]).length ≤ (1 : Int).toNat ∧
    (∃ c ∈ [candW, candW2], candW2r.chunk_id = c.chunk_id ∧
      candW2r.doc_id = c.doc_id ∧ candW2r.text = c.text ∧
      candW2r.score = c.score ∧ candW2r.meta = c.meta) ∧
    (rerankFallback [candW, candW2] 1).length ≤ (1 : Int).toNat :=
  ⟨rerank_containment.1 [candW, candW2] 1 [3 / 10, 7 / 10] (by decide),
   rerank_containment.2.1 [candW, candW2] 1 [3 / 10, 7 / 10] candW2r (by decide),
   rerank_containment.2.2.1 [candW, candW2] 1 (by decide)⟩

/-- Counterexample to C10 as stated: with `top_n = -1` and two candidates the
claim demands at most `max(-1, 0) = 0` results, but the Python slice keeps
`len - 1 = 1` element (on the fallback path as well). -/
theorem rerank_containment_counterexample :
    (rerank [candW, candW2] (-1) []).length = 1 ∧
    ¬ ((rerank [candW, candW2] (-1) []).length ≤ (max (-1 : Int) 0).toNat) ∧
    (rerankFallback [candW, candW2] (-1)).length = 1 := by
  decide

/-- C9 (amended) — Retrieval failures are absorbed, not surfaced: an
embedding-provider failure makes `retrieve_documents` return `[]`, an index
failure makes the vector search return `[]`, and the orchestrator turns the
empty retrieval into its normal "no relevant information" answer with no
error — the query does not fail. -/
theorem retrieval_failure_absorbed :
    (∀ (embed : String → Except String (List ℚ))
        (faissIndex : List ℚ → Nat → Except String (List (ℚ × Int)))
        (metas : List ChunkMeta) (query tenant_id : String) (top_k : Nat)
        (top_n : Int) (thr : ℚ) (combined : List ℚ) (e : String),
      embed query = Except.error e →
      retrieveDocuments embed faissIndex metas query tenant_id top_k top_n thr
        combined = []) ∧
    (∀ (faissIndex : List ℚ → Nat → Except String (List (ℚ × Int)))
        (metas : List ChunkMeta) (emb : List ℚ) (tenant_id : String)
        (top_k : Nat) (thr : ℚ) (e : String),
      faissIndex emb top_k = Except.error e →
      vsSearch faissIndex metas emb tenant_id top_k thr = []) ∧
    (∀ (env : Env) (question tenant_id : String) (use_cot : Bool)
        (samples : Nat),
      env.retrieve question tenant_id = [] →
      (processSingleHop env question tenant_id use_cot samples).answer =
          "I couldn" ++ apos ++ "t find relevant information to answer your question." ∧
        (processSingleHop env question tenant_id use_cot samples).error = none ∧
        (processSingleHop env question tenant_id use_cot samples).sources = []) := by
  refine ⟨?_, ?_, ?_⟩
  · intro embed faissIndex metas query tenant_id top_k top_n thr combined e h
    unfold retrieveDocuments
    rw [h]
  · intro faissIndex metas emb tenant_id top_k thr e h
    unfold vsSearch
    rw [h]
  · intro env question tenant_id use_cot samples h
    unfold processSingleHop
    rw [h]
    exact ⟨rfl, rfl, rfl⟩

/-- Witness for C9 (amended): concrete failing providers. -/
theorem retrieval_failure_absorbed_witness :
    retrieveDocuments embedFailW faissW [chunkW] "q" "t1" 50 5 (7 / 10) [] = [] ∧
    vsSearch faissFailW [chunkW] [1] "t1" 50 (7 / 10) = [] ∧
    (processSingleHop
        { retrieve := fun _ _ => [], llm := fun _ _ _ => Except.ok "x",
          maxTokens := 1000, hashF := fun _ => 0 } "q" "t1" false 1).answer =
      "I couldn" ++ apos ++ "t find relevant information to answer your question." :=
  ⟨retrieval_failure_absorbed.1 embedFailW faissW [chunkW] "q" "t1" 50 5 (7 / 10)
     [] "embedding failure" rfl,
   retrieval_failure_absorbed.2.1 faissFailW [chunkW] [1] "t1" 50 (7 / 10)
     "index failure" rfl,
   (retrieval_failure_absorbed.2.2
     { retrieve := fun _ _ => [], llm := fun _ _ _ => Except.ok "x",
       maxTokens := 1000, hashF := fun _ => 0 } "q" "t1" false 1 rfl).1⟩

/-- Counterexample to C9 as stated: the same store answers a healthy query
with a non-empty result, but under an embedding failure (or an index failure)
the caller receives a plain empty list — indistinguishable from "no evidence
found"; nothing fails and no error is surfaced. -/
theorem retrieval_error_counterexample :
    retrieveDocuments embedFailW faissW [chunkW] "q" "t1" 50 5 (7 / 10) [] = [] ∧
    vsSearch faissFailW [chunkW] [1] "t1" 50 (7 / 10) = [] ∧
    retrieveDocuments embedOkW faissW [chunkW] "q" "t1" 50 5 (7 / 10) [] ≠ [] := by
  decide


/-! ### Counting lemmas for the majority-vote aggregation -/

theorem lem_bump_cnt_self (k : String) (acc : List (String × Nat)) :
    cntOf (bumpCounts k acc) k = cntOf acc k + 1 := by
  induction acc with
  | nil => simp [bumpCounts, cntOf, List.find?]
  | cons p rest ih =>
    by_cases h : p.1 = k
    · simp [bumpCounts, h, cntOf, List.find?]
    · simp only [bumpCounts, if_neg h]
      simpa [cntOf, List.find?, h] using ih

theorem lem_bump_cnt_ne (k x : String) (acc : List (String × Nat))
    (hx : x ≠ k) : cntOf (bumpCounts k acc) x = cntOf acc x := by
  have hkx : ¬ (k = x) := fun hh => hx hh.symm
  induction acc with
  | nil => simp [bumpCounts, cntOf, List.find?, hkx]
  | cons p rest ih =>
    by_cases h : p.1 = k
    · have hpx : ¬ p.1 = x := by rw [h]; exact hkx
      simp [bumpCounts, h, cntOf, List.find?, hkx, hpx]
    · by_cases hq : p.1 = x
      · simp [bumpCounts, h, cntOf, List.find?, hq, hx, hkx]
      · simp only [bumpCounts, if_neg h]
        simpa [cntOf, List.find?, hq] using ih

theorem lem_bump_keys (k : String) (acc : List (String × Nat)) :
    (bumpCounts k acc).map Prod.fst =
      if k ∈ acc.map Prod.fst then acc.map Prod.fst
      else acc.map Prod.fst ++ [k] := by
  induction acc with
  | nil => simp [bumpCounts]
  | cons p rest ih =>
    by_cases h : p.1 = k
    · simp [bumpCounts, h]
    · have hkp : ¬ (k = p.1) := fun hh => h hh.symm
      simp only [bumpCounts, if_neg h, List.map_cons, ih]
      by_cases hm : k ∈ rest.map Prod.fst
      · simp [hm, hkp]
      · simp [hm, hkp]

theorem lem_bump_nodup (k : String) (acc : List (String × Nat))
    (h : (acc.map Prod.fst).Nodup) :
    ((bumpCounts k acc).map Prod.fst).Nodup := by
  rw [lem_bump_keys]
  by_cases hm : k ∈ acc.map Prod.fst
  · rwa [if_pos hm]
  · rw [if_neg hm]
    simp [List.nodup_append, h, hm]

theorem lem_find_eq_of_mem_nodup (acc : List (String × Nat)) (p : String × Nat)
    (hnd : (acc.map Prod.fst).Nodup) (hp : p ∈ acc) :
    acc.find? (fun q => q.1 = p.1) = some p := by
  induction acc with
  | nil => simp at hp
  | cons a rest ih =>
    rcases List.mem_cons.mp hp with h | h
    · subst h
      simp [List.find?]
    · have hnd' : (rest.map Prod.fst).Nodup := (List.nodup_cons.mp hnd).2
      have ha : a.1 ∉ rest.map Prod.fst := (List.nodup_cons.mp hnd).1
      have hne : ¬ a.1 = p.1 := by
        intro hh
        exact ha (hh ▸ List.mem_map_of_mem Prod.fst h)
      rw [List.find?_cons_of_neg _ (by simp [hne])]
      exact ih hnd' h

theorem lem_keyCounts_spec (ks : List String) :
    (∀ x, cntOf (keyCounts ks) x = ks.count x) ∧
    ((keyCounts ks).map Prod.fst).Nodup ∧
    ∀ p ∈ keyCounts ks, p.1 ∈ ks := by
  induction ks using List.reverseRecOn with
  | nil =>
    refine ⟨?_, ?_, ?_⟩ <;> simp [keyCounts, cntOf]
  | append_singleton ks k ih =>
    obtain ⟨ih1, ih2, ih3⟩ := ih
    have hunf : keyCounts (ks ++ [k]) = bumpCounts k (keyCounts ks) := by
      simp [keyCounts, List.foldl_append]
    refine ⟨?_, ?_, ?_⟩
    · intro x
      rw [hunf]
      by_cases hx : x = k
      · subst hx
        rw [lem_bump_cnt_self, ih1]
        simp [List.count_append]
      · have hkx : ¬ (k = x) := fun hh => hx hh.symm
        rw [lem_bump_cnt_ne _ _ _ hx, ih1]
        simp [List.count_append, List.count_singleton', hkx]
    · rw [hunf]
      exact lem_bump_nodup _ _ ih2
    · intro p hp
      rw [hunf] at hp
      have hmem : p.1 ∈ (bumpCounts k (keyCounts ks)).map Prod.fst :=
        List.mem_map_of_mem Prod.fst hp
      rw [lem_bump_keys] at hmem
      by_cases hk : k ∈ (keyCounts ks).map Prod.fst
      · rw [if_pos hk] at hmem
        obtain ⟨q, hq, hq1⟩ := List.mem_map.mp hmem
        exact List.mem_append.mpr (Or.inl (hq1 ▸ ih3 q hq))
      · rw [if_neg hk] at hmem
        rcases List.mem_append.mp hmem with hm | hm
        · obtain ⟨q, hq, hq1⟩ := List.mem_map.mp hm
          exact List.mem_append.mpr (Or.inl (hq1 ▸ ih3 q hq))
        · exact List.mem_append.mpr (Or.inr hm)

theorem lem_counts_ne_nil (ks : List String) (h : ks ≠ []) :
    keyCounts ks ≠ [] := by
  intro hc
  obtain ⟨x, hx⟩ := List.exists_mem_of_ne_nil ks h
  have h1 := (lem_keyCounts_spec ks).1 x
  rw [hc] at h1
  simp [cntOf] at h1
  have h2 : 0 < ks.count x := List.count_pos_iff.mpr hx
  omega

theorem lem_foldl_max (rest : List (String × Nat)) :
    ∀ best : String × Nat,
      (rest.foldl (fun b q => if b.2 < q.2 then q else b) best = best ∨
        rest.foldl (fun b q => if b.2 < q.2 then q else b) best ∈ rest) ∧
      best.2 ≤ (rest.foldl (fun b q => if b.2 < q.2 then q else b) best).2 ∧
      ∀ q ∈ rest, q.2 ≤ (rest.foldl (fun b q => if b.2 < q.2 then q else b) best).2 := by
  induction rest with
  | nil => intro best; exact ⟨Or.inl rfl, le_refl _, by simp⟩
  | cons q t ih =>
    intro best
    obtain ⟨ihm, ihb, ihall⟩ := ih (if best.2 < q.2 then q else best)
    have hstep : best.2 ≤ (if best.2 < q.2 then q else best).2 := by
      by_cases hlt : best.2 < q.2
      · rw [if_pos hlt]; exact le_of_lt hlt
      · rw [if_neg hlt]
    have hq : q.2 ≤ (if best.2 < q.2 then q else best).2 := by
      by_cases hlt : best.2 < q.2
      · rw [if_pos hlt]
      · rw [if_neg hlt]; exact le_of_not_lt hlt
    refine ⟨?_, le_trans hstep ihb, ?_⟩
    · rcases ihm with hm | hm
      · rw [List.foldl_cons, hm]
        by_cases hlt : best.2 < q.2
        · rw [if_pos hlt]; exact Or.inr (List.mem_cons_self q t)
        · rw [if_neg hlt]; exact Or.inl rfl
      · exact Or.inr (List.mem_cons.mpr (Or.inr hm))
    · intro r hr
      rcases List.mem_cons.mp hr with h | h
      · subst h; exact le_trans hq ihb
      · exact ihall r h

theorem lem_pyMax_spec (l : List (String × Nat)) (h : l ≠ []) :
    pyMaxByCount l ∈ l ∧ ∀ q ∈ l, q.2 ≤ (pyMaxByCount l).2 := by
  cases l with
  | nil => exact absurd rfl h
  | cons p rest =>
    obtain ⟨hm, hb, hall⟩ := lem_foldl_max rest p
    constructor
    · show rest.foldl _ p ∈ p :: rest
      rcases hm with hm | hm
      · rw [hm]; exact List.mem_cons_self p rest
      · exact List.mem_cons.mpr (Or.inr hm)
    · intro q hq
      rcases List.mem_cons.mp hq with h1 | h1
      · subst h1; exact hb
      · exact hall q h1

theorem lem_answerCounts_eq (answers : List String) :
    answerCounts answers = keyCounts (answers.map normAnswer) := by
  simp [answerCounts, keyCounts, List.foldl_map]

theorem lem_aggregate_majority (answers : List String) (traces : List Trace)
    (h : 2 ≤ answers.length) :
    ∃ w ∈ answers.map normAnswer,
      (∀ a ∈ answers, (answers.map normAnswer).count (normAnswer a) ≤
        (answers.map normAnswer).count w) ∧
      aggregateAnswers answers traces =
        ((answers.find? fun a => normAnswer a = w).getD answers.headI,
          ((answers.map normAnswer).count w : ℚ) / answers.length) := by
  match answers with
  | a :: b :: t =>
    have hcne : keyCounts ((a :: b :: t).map normAnswer) ≠ [] :=
      lem_counts_ne_nil _ (by simp)
    obtain ⟨hmem, hmax⟩ := lem_pyMax_spec _ hcne
    obtain ⟨hc1, hc2, hc3⟩ := lem_keyCounts_spec ((a :: b :: t).map normAnswer)
    have hw : (pyMaxByCount (keyCounts ((a :: b :: t).map normAnswer))).1 ∈
        (a :: b :: t).map normAnswer := hc3 _ hmem
    have hfind := lem_find_eq_of_mem_nodup _ _ hc2 hmem
    have hcnt : (pyMaxByCount (keyCounts ((a :: b :: t).map normAnswer))).2 =
        ((a :: b :: t).map normAnswer).count
          (pyMaxByCount (keyCounts ((a :: b :: t).map normAnswer))).1 := by
      have h1 := hc1 (pyMaxByCount (keyCounts ((a :: b :: t).map normAnswer))).1
      rw [cntOf, hfind] at h1
      simpa using h1
    refine ⟨_, hw, ?_, ?_⟩
    · intro x hx
      have hcx := hc1 (normAnswer x)
      cases hf : (keyCounts ((a :: b :: t).map normAnswer)).find?
          (fun p => p.1 = normAnswer x) with
      | none =>
        rw [cntOf, hf] at hcx
        simp only [Option.map_none', Option.getD_none] at hcx
        have hpos : 0 < ((a :: b :: t).map normAnswer).count (normAnswer x) :=
          List.count_pos_iff.mpr (List.mem_map_of_mem normAnswer hx)
        omega
      | some q =>
        have hqmem := List.mem_of_find?_eq_some hf
        have hq1 : q.1 = normAnswer x := by
          have := List.find?_some hf
          simpa using this
        have hq2 : q.2 = ((a :: b :: t).map normAnswer).count (normAnswer x) := by
          rw [cntOf, hf] at hcx
          simpa using hcx
        calc ((a :: b :: t).map normAnswer).count (normAnswer x) = q.2 := hq2.symm
          _ ≤ (pyMaxByCount (keyCounts ((a :: b :: t).map normAnswer))).2 :=
              hmax q hqmem
          _ = _ := hcnt
    · show aggregateAnswers (a :: b :: t) traces = _
      simp only [aggregateAnswers, lem_answerCounts_eq]
      rw [← hcnt]
      cases hf2 : (a :: b :: t).find? (fun x =>
          normAnswer x = (pyMaxByCount (keyCounts ((a :: b :: t).map normAnswer))).1) with
      | none => simp [hf2, List.headI]
      | some y => simp [hf2]

theorem lem_aggregate_replicate (n : Nat) (hn : 1 ≤ n) (a : String)
    (traces : List Trace) :
    (aggregateAnswers (List.replicate n a) traces).1 = a := by
  match n, hn with
  | 1, _ => simp [aggregateAnswers, List.replicate]
  | n + 2, _ =>
    have hrep : List.replicate (n + 2) a = a :: a :: List.replicate n a := by
      simp [List.replicate]
    rw [hrep]
    have hcne := lem_counts_ne_nil ((a :: a :: List.replicate n a).map normAnswer)
      (by simp)
    obtain ⟨hmem, -⟩ := lem_pyMax_spec _ hcne
    obtain ⟨-, -, hc3⟩ := lem_keyCounts_spec ((a :: a :: List.replicate n a).map normAnswer)
    have hw := hc3 _ hmem
    have hmap : (a :: a :: List.replicate n a).map normAnswer =
        List.replicate (n + 2) (normAnswer a) := by
      simp [List.replicate, List.map_replicate]
    rw [hmap] at hw
    have hwa := List.eq_of_mem_replicate hw
    have h2 : List.replicate (n + 2) (normAnswer a) =
        normAnswer a :: normAnswer a :: List.replicate n (normAnswer a) := by
      simp [List.replicate]
    rw [h2] at hwa
    simp only [aggregateAnswers, lem_answerCounts_eq]
    rw [List.find?_cons_of_pos _ (by simp [hwa])]

theorem lem_sampleAnswers_length (env : Env) (question : String)
    (sources : List Doc) (use_cot : Bool) (samples : Nat)
    (hop_results : List HopResult) :
    (sampleAnswers env question sources use_cot samples hop_results).length =
      samples := by
  show (((List.range samples).map fun (i : Nat) =>
      generateAnswer env question sources use_cot (7 / 10 + (i : ℚ) * (1 / 10))
        hop_results).map fun g => g.answer).length = samples
  rw [List.length_map, List.length_map, List.length_range]

/-- C3 (amended) — Consensus majority vote, for two or more sampled answers:
normalization is `lower().strip()`, the winner is a normalized text of
maximal vote count, the returned answer is verbatim the first answer whose
normalized form equals the winner, and the agreement equals
`voteCount / totalSamples`. (A single-sample list short-circuits to the
answer with agreement 0.5 — see the counterexample.) -/
theorem consensus_majority_vote (answers : List String) (traces : List Trace)
    (h : 2 ≤ answers.length) :
    ∃ w ∈ answers.map normAnswer,
      (∀ a ∈ answers, (answers.map normAnswer).count (normAnswer a) ≤
        (answers.map normAnswer).count w) ∧
      aggregateAnswers answers traces =
        ((answers.find? fun a => normAnswer a = w).getD answers.headI,
          ((answers.map normAnswer).count w : ℚ) / answers.length) :=
  lem_aggregate_majority answers traces h

/-- Witness for C3 (amended) at the spec's own example: `Paris/Paris/Lyon`
yields `"Paris"` with agreement `2/3`. -/
theorem consensus_majority_vote_witness :
    (∃ w ∈ (["Paris", "Paris", "Lyon"] : List String).map normAnswer,
      (∀ a ∈ (["Paris", "Paris", "Lyon"] : List String),
        ((["Paris", "Paris", "Lyon"] : List String).map normAnswer).count
            (normAnswer a) ≤
          ((["Paris", "Paris", "Lyon"] : List String).map normAnswer).count w) ∧
      aggregateAnswers ["Paris", "Paris", "Lyon"] [] =
        (((["Paris", "Paris", "Lyon"] : List String).find?
            fun a => normAnswer a = w).getD
              (["Paris", "Paris", "Lyon"] : List String).headI,
          (((["Paris", "Paris", "Lyon"] : List String).map normAnswer).count w : ℚ) /
            (["Paris", "Paris", "Lyon"] : List String).length)) ∧
    aggregateAnswers ["Paris", "Paris", "Lyon"] [] = ("Paris", 2 / 3) :=
  ⟨consensus_majority_vote ["Paris", "Paris", "Lyon"] [] (by decide), by decide⟩

/-- Counterexample to C3 as stated: for the non-empty single-answer list
`["Paris"]` the source returns agreement 0.5, not the claimed
`voteCount / totalSamples = 1/1 = 1`. -/
theorem consensus_singleton_counterexample :
    aggregateAnswers ["Paris"] [] = ("Paris", 1 / 2) ∧
    (aggregateAnswers ["Paris"] []).2 ≠ 1 := by decide

/-- C7 (amended) — Sample-failure handling in self-consistency: a sample
whose generation errors is not retried and does not raise; instead it
contributes a fixed apology answer with confidence 0 to the traces and to the
consensus vote (every one of the `samples` iterations contributes a trace);
and the batch never fails — even when every sample errors, the orchestrator
returns the apology text as the consensus answer. -/
theorem sc_sample_failure_tolerance :
    (∀ (env : Env) (question : String) (sources : List Doc) (use_cot : Bool)
        (temperature : ℚ) (hop_results : List HopResult) (e : String),
      env.llm (buildPrompt use_cot question sources hop_results) temperature
          env.maxTokens = Except.error e →
      generateAnswer env question sources use_cot temperature hop_results =
        { answer := "I apologize, but I couldn" ++ apos ++ "t generate a proper response.",
          reasoning := "", reasoning_steps := [], confidence := 0 }) ∧
    (∀ (env : Env) (question : String) (sources : List Doc) (use_cot : Bool)
        (samples : Nat) (hop_results : List HopResult),
      (processWithSelfConsistency env question sources use_cot samples
        hop_results).reasoning_traces.length = samples) ∧
    (∀ (env : Env) (question : String) (sources : List Doc) (use_cot : Bool)
        (samples : Nat) (hop_results : List HopResult),
      1 ≤ samples →
      (∀ p t m, ∃ e, env.llm p t m = Except.error e) →
      (processWithSelfConsistency env question sources use_cot samples
          hop_results).answer =
        "I apologize, but I couldn" ++ apos ++ "t generate a proper response.") := by
  refine ⟨?_, ?_, ?_⟩
  · intro env question sources use_cot temperature hop_results e h
    unfold generateAnswer
    rw [h]
  · intro env question sources use_cot samples hop_results
    show ((((List.range samples).map _).enum.map _ : List Trace)).length = samples
    rw [List.length_map, List.enum_length, List.length_map, List.length_range]
  · intro env question sources use_cot samples hop_results hn hfail
    have hans : (processWithSelfConsistency env question sources use_cot samples
        hop_results).answer =
        (aggregateAnswers (sampleAnswers env question sources use_cot samples
          hop_results) []).1 := rfl
    rw [hans]
    have hsa : sampleAnswers env question sources use_cot samples hop_results =
        List.replicate samples
          ("I apologize, but I couldn" ++ apos ++ "t generate a proper response.") := by
      rw [List.eq_replicate_iff]
      refine ⟨lem_sampleAnswers_length env question sources use_cot samples
        hop_results, ?_⟩
      intro b hb
      unfold sampleAnswers at hb
      rw [List.mem_map] at hb
      obtain ⟨g, hg, hgb⟩ := hb
      rw [List.mem_map] at hg
      obtain ⟨i, -, hig⟩ := hg
      obtain ⟨e, he⟩ := hfail
        (buildPrompt use_cot question sources hop_results)
        (7 / 10 + (i : ℚ) * (1 / 10)) env.maxTokens
      rw [← hgb, ← hig]
      unfold generateAnswer
      rw [he]
    rw [hsa]
    exact lem_aggregate_replicate samples hn _ []

/-- Witness for C7 (amended): a failing provider produces the apology
generation; a two-sample run always produces two traces; an all-failing
provider still yields the apology as the final answer rather than failing. -/
theorem sc_sample_failure_tolerance_witness :
    envAllFailW.llm (buildPrompt false "q" [srcW] []) (7 / 10)
        envAllFailW.maxTokens = Except.error "down" ∧
    generateAnswer envAllFailW "q" [srcW] false (7 / 10) [] =
      { answer := "I apologize, but I couldn" ++ apos ++ "t generate a proper response.",
        reasoning := "", reasoning_steps := [], confidence := 0 } ∧
    (processWithSelfConsistency envOkW "q" [srcW] false 2 []).reasoning_traces.length = 2 ∧
    (processWithSelfConsistency envAllFailW "q" [srcW] false 2 []).answer =
      "I apologize, but I couldn" ++ apos ++ "t generate a proper response." :=
  ⟨rfl,
   sc_sample_failure_tolerance.1 envAllFailW "q" [srcW] false (7 / 10) [] "down" rfl,
   sc_sample_failure_tolerance.2.1 envOkW "q" [srcW] false 2 [],
   sc_sample_failure_tolerance.2.2 envAllFailW "q" [srcW] false 2 []
     (by decide) (fun p t m => ⟨"down", rfl⟩)⟩

/-- Counterexample to C7 as stated: with two samples, the first failing and
the second answering `"Paris"`, the failed sample is not dropped — its
apology answer enters the vote (see the sampled answers), ties 1–1 with
`"Paris"`, and wins the tie as the earliest-seen answer, so the final answer
is the apology rather than the surviving sample's `"Paris"`. -/
theorem sc_failed_sample_counterexample :
    sampleAnswers envFailW "q" [srcW] false 2 [] =
      ["I apologize, but I couldn" ++ apos ++ "t generate a proper response.",
       "Paris"] ∧
    (processWithSelfConsistency envFailW "q" [srcW] false 2 []).answer =
      "I apologize, but I couldn" ++ apos ++ "t generate a proper response." ∧
    (processWithSelfConsistency envFailW "q" [srcW] false 2 []).answer ≠ "Paris" := by
  decide

/-- C8 (amended) — Consensus confidence: for every multi-sample run the final
confidence is the agreement score alone — the majority vote count over the
sampled answers divided by the sample count; the per-trace confidences (which
derive from source scores and answer length, not from hedging penalties) do
not enter it. -/
theorem sc_confidence_is_agreement (env : Env) (question : String)
    (sources : List Doc) (use_cot : Bool) (samples : Nat)
    (hop_results : List HopResult) (h : 2 ≤ samples) :
    ∃ w ∈ (sampleAnswers env question sources use_cot samples hop_results).map
        normAnswer,
      (∀ a ∈ sampleAnswers env question sources use_cot samples hop_results,
        ((sampleAnswers env question sources use_cot samples hop_results).map
            normAnswer).count (normAnswer a) ≤
          ((sampleAnswers env question sources use_cot samples hop_results).map
            normAnswer).count w) ∧
      (processWithSelfConsistency env question sources use_cot samples
          hop_results).confidence =
        (((sampleAnswers env question sources use_cot samples hop_results).map
            normAnswer).count w : ℚ) / samples := by
  have hlen := lem_sampleAnswers_length env question sources use_cot samples
    hop_results
  obtain ⟨w, hw, hmax, heq⟩ := lem_aggregate_majority
    (sampleAnswers env question sources use_cot samples hop_results) []
    (by rw [hlen]; exact h)
  refine ⟨w, hw, hmax, ?_⟩
  have hconf : (processWithSelfConsistency env question sources use_cot samples
      hop_results).confidence =
      (aggregateAnswers (sampleAnswers env question sources use_cot samples
        hop_results) []).2 := rfl
  rw [hconf, heq, hlen]

/-- Witness for C8 (amended) at a concrete two-sample run. -/
theorem sc_confidence_is_agreement_witness :
    ∃ w ∈ (sampleAnswers envOkW "q" [srcW] false 2 []).map normAnswer,
      (∀ a ∈ sampleAnswers envOkW "q" [srcW] false 2 [],
        ((sampleAnswers envOkW "q" [srcW] false 2 []).map normAnswer).count
            (normAnswer a) ≤
          ((sampleAnswers envOkW "q" [srcW] false 2 []).map normAnswer).count w) ∧
      (processWithSelfConsistency envOkW "q" [srcW] false 2 []).confidence =
        (((sampleAnswers envOkW "q" [srcW] false 2 []).map normAnswer).count w : ℚ) / 2 :=
  sc_confidence_is_agreement envOkW "q" [srcW] false 2 [] (by decide)

/-- Counterexample to C8 as stated: in a unanimous two-sample run the code
returns confidence 1 (the agreement alone), while the claimed mean of the
agreement and the mean trace confidence — trace confidence itself coming
from `_calculate_confidence`, with no 0.8 hedging penalty anywhere in the
orchestrator — would be `(1 + 89/250) / 2 = 339/500`. -/
theorem sc_confidence_counterexample :
    (processWithSelfConsistency envOkW "q" [srcW] false 2 []).confidence = 1 ∧
    calculateConfidence "Paris" [srcW] = 89 / 250 ∧
    (processWithSelfConsistency envOkW "q" [srcW] false 2 []).confidence ≠
      (1 + (calculateConfidence "Paris" [srcW] +
        calculateConfidence "Paris" [srcW]) / 2) / 2 := by
  decide

/-! ### Verification-service claim (C4) -/

theorem lem_verifyLoop_len (sources : List Doc) :
    ∀ (claims : List String) (acc : List String × List String × List Evidence),
      ((claims.foldl (fun acc c =>
          let r := verifySingleClaim c sources
          if r.1 then (acc.1 ++ [c], acc.2.1, acc.2.2 ++ r.2)
          else (acc.1, acc.2.1 ++ [c], acc.2.2)) acc).1.length +
        (claims.foldl (fun acc c =>
          let r := verifySingleClaim c sources
          if r.1 then (acc.1 ++ [c], acc.2.1, acc.2.2 ++ r.2)
          else (acc.1, acc.2.1 ++ [c], acc.2.2)) acc).2.1.length) =
        acc.1.length + acc.2.1.length + claims.length := by
  intro claims
  induction claims with
  | nil => intro acc; simp
  | cons c t ih =>
    intro acc
    rw [List.foldl_cons, ih]
    by_cases hv : (verifySingleClaim c sources).1
    · simp [hv]
      omega
    · simp [hv]
      omega

/-- C4 (amended) — Verification outcomes: with an empty source list (or an
empty answer) `verify_claims` always short-circuits to `verified=False,
confidence=0.0`, regardless of whether the answer contains factual claims;
with a non-empty answer and non-empty sources, an answer with no extractable
claims yields `verified=True, confidence=1.0`, and otherwise
`verified ⟺ no unverified claims`, `confidence = verified/total`, with
verified and unverified claims partitioning the extracted claims. -/
theorem verify_claims_behaviour :
    (∀ answer : String, (verifyClaims answer []).verified = false ∧
      (verifyClaims answer []).confidence = 0) ∧
    (∀ (answer : String) (sources : List Doc), answer ≠ "" → sources ≠ [] →
      ((verifyClaims answer sources).verified = true ↔
        (verifyClaims answer sources).unverified_claims = []) ∧
      (verifyClaims answer sources).confidence =
        (if extractClaims answer = [] then (1 : ℚ)
         else ((verifyClaims answer sources).verified_claims.length : ℚ) /
           (extractClaims answer).length) ∧
      (verifyClaims answer sources).verified_claims.length +
          (verifyClaims answer sources).unverified_claims.length =
        (extractClaims answer).length) := by
  constructor
  · intro answer
    unfold verifyClaims
    rw [if_pos (Or.inr rfl)]
    exact ⟨rfl, rfl⟩
  · intro answer sources ha hs
    have hcond : ¬ (answer = "" ∨ sources = []) := by
      simp [ha, hs]
    unfold verifyClaims
    rw [if_neg hcond]
    by_cases hc : extractClaims answer = []
    · rw [if_pos hc]
      simp [hc]
    · rw [if_neg hc]
      refine ⟨?_, ?_, ?_⟩
      · simp [List.isEmpty_iff]
      · simp only [if_neg hc]
      · have hlen := lem_verifyLoop_len sources (extractClaims answer) ([], [], [])
        simpa [verifyLoop] using hlen

/-- Witness for C4 (amended): the empty-source short-circuit on a factual
answer, and a full run of a one-claim answer against a non-matching source
(the claim stays unverified: `verified=False`, `confidence = 0/1`). -/
theorem verify_claims_behaviour_witness :
    ((verifyClaims "The domain is example" []).verified = false ∧
      (verifyClaims "The domain is example" []).confidence = 0) ∧
    ((verifyClaims "The domain is example" [srcW]).verified = true ↔
      (verifyClaims "The domain is example" [srcW]).unverified_claims = []) ∧
    (verifyClaims "The domain is example" [srcW]).confidence =
      (if extractClaims "The domain is example" = [] then (1 : ℚ)
       else ((verifyClaims "The domain is example" [srcW]).verified_claims.length : ℚ) /
         (extractClaims "The domain is example").length) ∧
    (verifyClaims "The domain is example" [srcW]).verified_claims.length +
        (verifyClaims "The domain is example" [srcW]).unverified_claims.length =
      (extractClaims "The domain is example").length :=
  ⟨verify_claims_behaviour.1 "The domain is example",
   verify_claims_behaviour.2 "The domain is example" [srcW] (by decide) (by decide)⟩

/-- Counterexample to C4 as stated: the answer `"I don't know."` contains no
extractable factual claim, yet `Verify(answer, [])` returns `verified=False`
with `confidence=0.0` — not the claimed `verified=True, confidence=1.0` —
because the empty source list short-circuits before claims are extracted. -/
theorem verify_empty_sources_counterexample :
    extractClaims ("I don" ++ apos ++ "t know.") = [] ∧
    (verifyClaims ("I don" ++ apos ++ "t know.") []).verified = false ∧
    (verifyClaims ("I don" ++ apos ++ "t know.") []).confidence = 0 := by
  decide

/-! ### Hop-cache claim (C2) -/

theorem lem_executeHop_cache_mono (env : Env) (hp : HopPlan) (ctx : Ctx)
    (st : PlannerState) (p : String × HopResult) (h : p ∈ st.hop_cache) :
    p ∈ (executeHop env hp ctx st).2.hop_cache := by
  unfold executeHop
  cases hl : lookupCache st.hop_cache (hopKey env hp) with
  | some r => simp only [hl]; exact h
  | none =>
    simp only [hl]
    split
    · exact List.mem_append.mpr (Or.inl h)
    · exact h

theorem lem_multiHop_cache_mono (env : Env) :
    ∀ (plan : List HopPlan) (acc : Ctx × PlannerState × List HopResult)
      (p : String × HopResult), p ∈ acc.2.1.hop_cache →
      p ∈ (plan.foldl (multiHopStep env) acc).2.1.hop_cache := by
  intro plan
  induction plan with
  | nil => intro acc p h; exact h
  | cons hp t ih =>
    intro acc p h
    rw [List.foldl_cons]
    exact ih _ p (lem_executeHop_cache_mono env hp acc.1 acc.2.1 p h)

theorem lem_processMultiHop_state (env : Env) (question tenant_id : String)
    (plan : List HopPlan) (use_cot : Bool) (samples : Nat) (st : PlannerState) :
    (processMultiHop env question tenant_id plan use_cot samples st).2 =
    (plan.foldl (multiHopStep env)
      ({ tenant_id := some tenant_id, question := question }, st, [])).2.1 := by
  unfold processMultiHop
  by_cases hs : 1 < samples
  · simp only [if_pos hs]
  · simp only [if_neg hs]

/-- C2 (amended) — The hop cache outlives the request: it belongs to the
orchestrator's long-lived `QueryPlanner`, `process_query` neither creates a
fresh cache nor discards one (existing entries survive every top-level call),
and any hop execution whose `hop_{n}_{hash(subquery)}` key is already cached
— regardless of which top-level query wrote it — returns the cached result
without re-executing the hop. -/
theorem hop_cache_persistence :
    (∀ (env : Env) (question tenant_id : String) (max_hops : Nat)
        (use_cot : Bool) (samples : Nat) (st : PlannerState)
        (p : String × HopResult),
      p ∈ st.hop_cache →
      p ∈ (processQuery env question tenant_id max_hops use_cot samples
        st).2.hop_cache) ∧
    (∀ (env : Env) (hp : HopPlan) (ctx : Ctx) (st : PlannerState)
        (r : HopResult),
      lookupCache st.hop_cache (hopKey env hp) = some r →
      executeHop env hp ctx st = (r, st)) := by
  constructor
  · intro env question tenant_id max_hops use_cot samples st p h
    unfold processQuery
    by_cases hq : (planQuery question max_hops).length = 1
    · simp only [if_pos hq]; exact h
    · simp only [if_neg hq]
      rw [lem_processMultiHop_state]
      exact lem_multiHop_cache_mono env _ _ p h
  · intro env hp ctx st r h
    unfold executeHop
    simp only [h]

/-- Witness for C2 (amended): a pre-existing cache entry survives a concrete
multi-hop top-level query, and a hop whose key is cached returns the cached
result with the state unchanged. -/
theorem hop_cache_persistence_witness :
    ("k", hopResW) ∈ (processQuery env1W "compare a and b" "t1" 3 false 1
      stCacheW).2.hop_cache ∧
    executeHop env1W hpW ctxW stKeyW = (hopResW, stKeyW) :=
  ⟨hop_cache_persistence.1 env1W "compare a and b" "t1" 3 false 1 stCacheW
     ("k", hopResW) (by decide),
   hop_cache_persistence.2 env1W hpW ctxW stKeyW hopResW (by decide)⟩

/-- Counterexample to C2 as stated: running the same multi-hop question
twice through `process_query` on the same planner — with the document corpus
changed in between (`env1W` retrieves `docAW`, `env2W` retrieves `docBW`) —
the second call returns the first call's sources, served from hop-cache
entries written while serving the first call; on a fresh planner the same
second call returns the new corpus's sources. -/
theorem hop_cache_cross_request_counterexample :
    (processQuery env2W "compare a and b" "t1" 3 false 1
        (processQuery env1W "compare a and b" "t1" 3 false 1 st0W).2).1.sources =
      (processQuery env1W "compare a and b" "t1" 3 false 1 st0W).1.sources ∧
    (processQuery env2W "compare a and b" "t1" 3 false 1
        (processQuery env1W "compare a and b" "t1" 3 false 1 st0W).2).1.sources ≠
      (processQuery env2W "compare a and b" "t1" 3 false 1 st0W).1.sources := by
  decide
